import Mathlib

/-!
# PromptShield — verification of the detection-and-interception engine

Shallow embedding of the PromptShield content scripts (the two near-duplicate
generations of the content script and the two popup scripts) together with
proofs about the scanner (`scanText`), the submission-guard protocol
(`clickStep`, the keydown handler traces), and the persistence helpers
(`getStorage` / `setStorage`, `renderCounts`).

Texts are modelled as `List Char`.  JavaScript regular expressions are
embedded as a small backtracking matcher (`matchK`) over an explicit regex
syntax `RE`; the matcher reproduces the leftmost, greedy, backtracking
semantics of `RegExp.prototype.exec` with the `g` flag for the constructs the
catalog uses (character classes, literals, alternation, greedy counted
repetition of a character class, word boundaries, and the multiline anchors).
JS `\s` is modelled by its ASCII portion, which covers every input considered
here.
-/

set_option maxRecDepth 4096

namespace PromptShield

/-! ## Character classes (JS semantics) -/

/-- JS `\w`: `[A-Za-z0-9_]`. -/
def isWordChar (c : Char) : Bool := c.isAlphanum || c == '_'

/-- JS `\d`: `[0-9]`. -/
def isDigitChar (c : Char) : Bool := c.isDigit

/-- JS `\s`, restricted to its ASCII members. -/
def isSpaceChar (c : Char) : Bool :=
  c == ' ' || c == '\t' || c == '\n' || c == '\r' || c == '\x0b' || c == '\x0c'

/-- JS line terminators (for the `m` flag and for `.`). -/
def isLineTerm (c : Char) : Bool :=
  c == '\n' || c == '\r' || c == '\u2028' || c == '\u2029'

/-! ## Regex syntax -/

/-- Regex syntax covering the constructs used by the PromptShield catalog.
`rep p lo hi` is greedy counted repetition `{lo,hi}` of a single character
class (`hi = none` meaning unbounded); `?`, `*`, `+` are encoded through it,
and optional groups through `alt r eps`. -/
inductive RE where
  | eps : RE
  | cls : (Char → Bool) → RE
  | seq : RE → RE → RE
  | alt : RE → RE → RE
  | rep : (Char → Bool) → Nat → Option Nat → RE
  | wb : RE
  | bol : RE
  | eol : RE

/-- Literal string: sequence of single-character classes. -/
def lit (s : String) : RE :=
  s.data.foldr (fun c r => RE.seq (RE.cls (fun x => x == c)) r) RE.eps

/-- Case-insensitive literal (for the `i` flag; JS canonicalisation restricted
to ASCII case folding, which covers the catalog's literals). -/
def litI (s : String) : RE :=
  s.data.foldr (fun c r => RE.seq (RE.cls (fun x => x.toLower == c.toLower)) r) RE.eps

/-- Left-nested alternation `a|b|c|...` preserving JS's left-to-right order. -/
def alts : List RE → RE
  | [] => RE.eps
  | [r] => r
  | r :: rs => RE.alt r (alts rs)

/-- `r?` for a group (greedy). -/
def opt (r : RE) : RE := RE.alt r RE.eps

/-! ## The matcher -/

/-- Number of consecutive characters of `l` satisfying `p`. -/
def countLeading (p : Char → Bool) : List Char → Nat
  | [] => 0
  | c :: cs => if p c then countLeading p cs + 1 else 0

/-- Length of the maximal run of class-`p` characters of `t` starting at `i`. -/
def takeClass (p : Char → Bool) (t : List Char) (i : Nat) : Nat :=
  countLeading p (t.drop i)

/-- Whether position `i` of `t` is preceded by a word character. -/
def prevWord (t : List Char) (i : Nat) : Bool :=
  match i with
  | 0 => false
  | j + 1 =>
    match t.get? j with
    | some c => isWordChar c
    | none => false

/-- Whether the character at position `i` of `t` is a word character. -/
def curWord (t : List Char) (i : Nat) : Bool :=
  match t.get? i with
  | some c => isWordChar c
  | none => false

/-- JS `\b` at position `i`. -/
def wordBoundaryAt (t : List Char) (i : Nat) : Bool :=
  !(prevWord t i == curWord t i)

/-- JS multiline `^` at position `i`. -/
def bolAt (t : List Char) (i : Nat) : Bool :=
  match i with
  | 0 => true
  | j + 1 =>
    match t.get? j with
    | some c => isLineTerm c
    | none => false

/-- JS multiline `$` at position `i`. -/
def eolAt (t : List Char) (i : Nat) : Bool :=
  match t.get? i with
  | some c => isLineTerm c
  | none => true

/-- Greedy backtracking driver for counted repetition: try `n` copies first,
then fewer, never fewer than `lo`. -/
def repTry (i lo : Nat) (k : Nat → Option Nat) : Nat → Option Nat
  | 0 => if lo = 0 then k i else none
  | n + 1 =>
    if n + 1 < lo then none
    else
      match k (i + (n + 1)) with
      | some r => some r
      | none => repTry i lo k n

/-- Backtracking matcher in continuation-passing style: try to match `r` in
`t` starting at position `i`, calling `k` on each candidate end position in
JS priority order, returning the first success. -/
def matchK : RE → List Char → Nat → (Nat → Option Nat) → Option Nat
  | RE.eps, _, i, k => k i
  | RE.cls p, t, i, k =>
    match t.get? i with
    | some c => if p c then k (i + 1) else none
    | none => none
  | RE.seq a b, t, i, k => matchK a t i (fun j => matchK b t j k)
  | RE.alt a b, t, i, k =>
    match matchK a t i k with
    | some r => some r
    | none => matchK b t i k
  | RE.rep p lo hi, t, i, k =>
    let avail := takeClass p t i
    let cap := match hi with | some h => min avail h | none => avail
    repTry i lo k cap
  | RE.wb, t, i, k => if wordBoundaryAt t i then k i else none
  | RE.bol, t, i, k => if bolAt t i then k i else none
  | RE.eol, t, i, k => if eolAt t i then k i else none

/-- End position of the match of `r` at position `i` of `t`, if any. -/
def matchAt (r : RE) (t : List Char) (i : Nat) : Option Nat :=
  matchK r t i some

/-- Fuel-driven search for the leftmost match starting at a position in
`[s, t.length]`. -/
def firstMatchFromF (r : RE) (t : List Char) : Nat → Nat → Option (Nat × Nat)
  | 0, _ => none
  | fuel + 1, s =>
    match matchAt r t s with
    | some e => some (s, e)
    | none => if s < t.length then firstMatchFromF r t fuel (s + 1) else none

/-- Leftmost match of `r` in `t` starting at or after `s`: `(begin, end)`. -/
def firstMatchFrom (r : RE) (t : List Char) (s : Nat) : Option (Nat × Nat) :=
  firstMatchFromF r t (t.length + 1 - s) s

/-- The `while ((match = regex.exec(text)) !== null)` loop: successive
non-overlapping leftmost matches, advancing `lastIndex` to each match's end.
(The catalog's regexes never produce empty matches; the `e ≤ b` guard only
ensures termination.) -/
def execLoop (r : RE) (t : List Char) : Nat → Nat → List (List Char)
  | 0, _ => []
  | fuel + 1, last =>
    match firstMatchFrom r t last with
    | none => []
    | some (b, e) =>
      (t.drop b).take (e - b) :: execLoop r t fuel (if b < e then e else e + 1)

/-- All matches of `r` in `t`, in the order `exec` with the `g` flag yields
them. -/
def allMatches (r : RE) (t : List Char) : List (List Char) :=
  execLoop r t (t.length + 1) 0

/-! ## Categories -/

/-- The fixed ten-category enumeration (`CATEGORIES` in both content-script
generations). -/
inductive Category where
  | apiKey | privateKey | password | creditCard | ssn
  | bulkEmail | internalIp | jwt | envFile | connectionString
deriving DecidableEq, Repr

/-- All ten categories. -/
def allCategories : List Category :=
  [Category.apiKey, Category.privateKey, Category.password, Category.creditCard,
   Category.ssn, Category.bulkEmail, Category.internalIp, Category.jwt,
   Category.envFile, Category.connectionString]

/-! ## Luhn check (`luhnCheck` in both generations) -/

/-- Numeric value of a digit character (`parseInt(digits[i], 10)`). -/
def digitVal (c : Char) : Nat := c.toNat - '0'.toNat

/-- The loop of `luhnCheck` over the digit list from last to first: the
`isEven` flag starts `false` and toggles, doubling (and subtracting 9 above 9)
when set.  The argument list is the digit sequence already reversed. -/
def luhnLoop : List Nat → Bool → Nat
  | [], _ => 0
  | d :: ds, isEven =>
    (if isEven then (if 2 * d > 9 then 2 * d - 9 else 2 * d) else d) + luhnLoop ds (!isEven)

/-- `luhnCheck(numStr)`: strip non-digits, require 13–19 digits, check the
Luhn sum. -/
def luhnCheck (numStr : List Char) : Bool :=
  let digits := numStr.filter (fun c => c.isDigit)
  if digits.length < 13 || digits.length > 19 then false
  else (luhnLoop ((digits.map digitVal).reverse) false) % 10 == 0

/-! ## The pattern catalog (`PATTERNS` of the part_002 generation) -/

/-- One `PATTERNS` entry: category name, regex and the optional
`validate(match, allMatchesOfThisRule, fullText)` callback (JS `null` for the
second argument is rendered as `[]`). -/
structure Rule where
  name : Category
  regex : RE
  validate : Option (List Char → List (List Char) → List Char → Bool)

/-- `/(?:API_KEY|SECRET|PASSWORD|TOKEN|PRIVATE)/i.test(text)` of the env-file
validator. -/
def envKeywordRE : RE :=
  alts [litI "API_KEY", litI "SECRET", litI "PASSWORD", litI "TOKEN", litI "PRIVATE"]

/-- `regex.test(text)`. -/
def reTest (r : RE) (t : List Char) : Bool :=
  (firstMatchFrom r t 0).isSome

/-- API-key rule. -/
def apiKeyRule : Rule where
  name := Category.apiKey
  regex :=
    RE.seq RE.wb (RE.seq
      (alts [lit "AKIA", lit "ghp_", lit "gho_", lit "ghu_", lit "ghs_", lit "ghr_",
             lit "sk_live_", lit "sk_test_", lit "pk_live_", lit "pk_test_",
             RE.seq (lit "sk-") (RE.rep (fun c => c.isAlphanum) 20 none),
             RE.seq (lit "AIza")
               (RE.rep (fun c => c.isAlphanum || c == '_' || c == '-') 35 (some 35)),
             RE.seq (lit "openai-") (RE.rep (fun c => c.isAlphanum) 48 (some 48))])
      RE.wb)
  validate := none

/-- Private-key rule. -/
def privateKeyRule : Rule where
  name := Category.privateKey
  regex :=
    RE.seq (lit "-----BEGIN")
      (RE.seq (RE.rep isSpaceChar 1 none)
        (RE.seq (opt (RE.seq (lit "RSA") (RE.rep isSpaceChar 1 none)))
          (RE.seq (opt (RE.seq (lit "DSA") (RE.rep isSpaceChar 1 none)))
            (RE.seq (opt (RE.seq (lit "EC") (RE.rep isSpaceChar 1 none)))
              (RE.seq (opt (RE.seq (lit "OPENSSH") (RE.rep isSpaceChar 1 none)))
                (RE.seq (opt (RE.seq (lit "PGP") (RE.rep isSpaceChar 1 none)))
                  (lit "PRIVATE KEY-----")))))))
  validate := none

/-- First password rule (`/\b(?:password|pwd|passwd|secret)\s*[:=]\s*["']?[^\s"']{6,}["']?/gi`). -/
def passwordRule1 : Rule where
  name := Category.password
  regex :=
    RE.seq RE.wb (RE.seq
      (alts [litI "password", litI "pwd", litI "passwd", litI "secret"])
      (RE.seq (RE.rep isSpaceChar 0 none)
        (RE.seq (RE.cls (fun c => c == ':' || c == '='))
          (RE.seq (RE.rep isSpaceChar 0 none)
            (RE.seq (RE.rep (fun c => c == '"' || c == '\'') 0 (some 1))
              (RE.seq (RE.rep (fun c => !(isSpaceChar c || c == '"' || c == '\'')) 6 none)
                (RE.rep (fun c => c == '"' || c == '\'') 0 (some 1))))))))
  validate := none

/-- Second password rule (`/\bpassword\s*[:=]?\s*\S{6,}/gi`). -/
def passwordRule2 : Rule where
  name := Category.password
  regex :=
    RE.seq RE.wb (RE.seq (litI "password")
      (RE.seq (RE.rep isSpaceChar 0 none)
        (RE.seq (RE.rep (fun c => c == ':' || c == '=') 0 (some 1))
          (RE.seq (RE.rep isSpaceChar 0 none)
            (RE.rep (fun c => !isSpaceChar c) 6 none)))))
  validate := none

/-- Plain credit-card rule (`/\b\d{13,19}\b/g`, Luhn-validated). -/
def ccPlainRule : Rule where
  name := Category.creditCard
  regex := RE.seq RE.wb (RE.seq (RE.rep isDigitChar 13 (some 19)) RE.wb)
  validate := some (fun m _ _ => luhnCheck m)

/-- Four groups of four digits joined by a one-character separator class,
delimited by word boundaries — the common shape of the spaced and dashed
credit-card rules. -/
def grouped4RE (sep : Char → Bool) : RE :=
  RE.seq RE.wb (RE.seq (RE.rep isDigitChar 4 (some 4))
    (RE.seq (RE.cls sep) (RE.seq (RE.rep isDigitChar 4 (some 4))
      (RE.seq (RE.cls sep) (RE.seq (RE.rep isDigitChar 4 (some 4))
        (RE.seq (RE.cls sep) (RE.seq (RE.rep isDigitChar 4 (some 4)) RE.wb)))))))

/-- Spaced credit-card rule (`/\b\d{4}\s\d{4}\s\d{4}\s\d{4}\b/g`). -/
def ccSpacedRule : Rule where
  name := Category.creditCard
  regex := grouped4RE isSpaceChar
  validate := some (fun m _ _ => luhnCheck m)

/-- Dashed credit-card rule (`/\b\d{4}-\d{4}-\d{4}-\d{4}\b/g`). -/
def ccDashedRule : Rule where
  name := Category.creditCard
  regex := grouped4RE (fun c => c == '-')
  validate := some (fun m _ _ => luhnCheck m)

/-- Amex-style credit-card rule (`/\b\d{4}[\s-]\d{6}[\s-]\d{5}\b/g`). -/
def ccAmexRule : Rule where
  name := Category.creditCard
  regex :=
    RE.seq RE.wb (RE.seq (RE.rep isDigitChar 4 (some 4))
      (RE.seq (RE.cls (fun c => isSpaceChar c || c == '-'))
        (RE.seq (RE.rep isDigitChar 6 (some 6))
          (RE.seq (RE.cls (fun c => isSpaceChar c || c == '-'))
            (RE.seq (RE.rep isDigitChar 5 (some 5)) RE.wb)))))
  validate := some (fun m _ _ => luhnCheck m)

/-- SSN rule (`/\b\d{3}[-\s]?\d{2}[-\s]?\d{4}\b/g`). -/
def ssnRule : Rule where
  name := Category.ssn
  regex :=
    RE.seq RE.wb (RE.seq (RE.rep isDigitChar 3 (some 3))
      (RE.seq (RE.rep (fun c => c == '-' || isSpaceChar c) 0 (some 1))
        (RE.seq (RE.rep isDigitChar 2 (some 2))
          (RE.seq (RE.rep (fun c => c == '-' || isSpaceChar c) 0 (some 1))
            (RE.seq (RE.rep isDigitChar 4 (some 4)) RE.wb)))))
  validate := none

/-- Bulk-email rule (`/[a-zA-Z0-9._%+-]+@[a-zA-Z0-9.-]+\.[a-zA-Z]{2,}/g`). -/
def bulkEmailRule : Rule where
  name := Category.bulkEmail
  regex :=
    RE.seq (RE.rep (fun c => c.isAlphanum || c == '.' || c == '_' || c == '%' || c == '+' || c == '-') 1 none)
      (RE.seq (RE.cls (fun c => c == '@'))
        (RE.seq (RE.rep (fun c => c.isAlphanum || c == '.' || c == '-') 1 none)
          (RE.seq (RE.cls (fun c => c == '.'))
            (RE.rep (fun c => c.isAlpha) 2 none))))
  validate := some (fun _ all _ => decide (3 ≤ all.length))

/-- Internal-IP rule. -/
def internalIpRule : Rule where
  name := Category.internalIp
  regex :=
    RE.seq RE.wb (RE.seq
      (alts
        [RE.seq (lit "10.") (RE.seq (RE.rep isDigitChar 1 (some 3))
           (RE.seq (RE.cls (fun c => c == '.')) (RE.seq (RE.rep isDigitChar 1 (some 3))
             (RE.seq (RE.cls (fun c => c == '.')) (RE.rep isDigitChar 1 (some 3)))))),
         RE.seq (lit "192.168.") (RE.seq (RE.rep isDigitChar 1 (some 3))
           (RE.seq (RE.cls (fun c => c == '.')) (RE.rep isDigitChar 1 (some 3)))),
         RE.seq (lit "172.")
           (RE.seq (alts
              [RE.seq (RE.cls (fun c => c == '1')) (RE.cls (fun c => '6' ≤ c && c ≤ '9')),
               RE.seq (RE.cls (fun c => c == '2')) (RE.cls (fun c => c.isDigit)),
               RE.seq (RE.cls (fun c => c == '3')) (RE.cls (fun c => c == '0' || c == '1'))])
             (RE.seq (RE.cls (fun c => c == '.')) (RE.seq (RE.rep isDigitChar 1 (some 3))
               (RE.seq (RE.cls (fun c => c == '.')) (RE.rep isDigitChar 1 (some 3))))))])
      RE.wb)
  validate := none

/-- JWT rule (`/\beyJ[A-Za-z0-9_-]*\.eyJ[A-Za-z0-9_-]*\.[A-Za-z0-9_-]+\b/g`). -/
def jwtRule : Rule where
  name := Category.jwt
  regex :=
    RE.seq RE.wb (RE.seq (lit "eyJ")
      (RE.seq (RE.rep (fun c => c.isAlphanum || c == '_' || c == '-') 0 none)
        (RE.seq (RE.cls (fun c => c == '.')) (RE.seq (lit "eyJ")
          (RE.seq (RE.rep (fun c => c.isAlphanum || c == '_' || c == '-') 0 none)
            (RE.seq (RE.cls (fun c => c == '.'))
              (RE.seq (RE.rep (fun c => c.isAlphanum || c == '_' || c == '-') 1 none) RE.wb)))))))
  validate := none

/-- Env-file rule (`/^[A-Z_][A-Z0-9_]*\s*=\s*.+$/gm` with its full-text
validator). -/
def envFileRule : Rule where
  name := Category.envFile
  regex :=
    RE.seq RE.bol (RE.seq (RE.cls (fun c => ('A' ≤ c && c ≤ 'Z') || c == '_'))
      (RE.seq (RE.rep (fun c => ('A' ≤ c && c ≤ 'Z') || c.isDigit || c == '_') 0 none)
        (RE.seq (RE.rep isSpaceChar 0 none)
          (RE.seq (RE.cls (fun c => c == '='))
            (RE.seq (RE.rep isSpaceChar 0 none)
              (RE.seq (RE.rep (fun c => !isLineTerm c) 1 none) RE.eol))))))
  validate := some (fun _ _ text => text.contains '=' && reTest envKeywordRE text)

/-- Connection-string rule (`/\b(?:mongodb|postgres|mysql|redis):\/\/[^\s'"]+/gi`). -/
def connectionStringRule : Rule where
  name := Category.connectionString
  regex :=
    RE.seq RE.wb (RE.seq
      (alts [litI "mongodb", litI "postgres", litI "mysql", litI "redis"])
      (RE.seq (lit "://")
        (RE.rep (fun c => !(isSpaceChar c || c == '\'' || c == '"')) 1 none)))
  validate := none

/-- The `PATTERNS` array of the part_002 generation, in source order. -/
def PATTERNS : List Rule :=
  [apiKeyRule, privateKeyRule, passwordRule1, passwordRule2,
   ccPlainRule, ccSpacedRule, ccDashedRule, ccAmexRule,
   ssnRule, bulkEmailRule, internalIpRule, jwtRule, envFileRule,
   connectionStringRule]

/-! ## `scanText` (part_002 generation) -/

/-- `MAX_SCAN_LENGTH` — ReDoS mitigation bound. -/
def MAX_SCAN_LENGTH : Nat := 500000

/-- `results[pattern.name] = (results[pattern.name] || 0) + 1`. -/
def bump (res : Category → Nat) (c : Category) : Category → Nat :=
  fun c' => if c' = c then res c + 1 else res c'

/-- The body of the `while` loop of `scanText` for one rule: walk the rule's
matches; bulk-email matches are pushed onto the accumulated email list and
skipped; other matches are validated and, when new to the per-rule `seen`
set, counted towards the rule's category. -/
def processMatches (r : Rule) (text : List Char) :
    List (List Char) → List (List Char) → (Category → Nat) → List (List Char) →
    (Category → Nat) × List (List Char)
  | [], _, res, emails => (res, emails)
  | m :: ms, seen, res, emails =>
    match r.validate with
    | some v =>
      if r.name = Category.bulkEmail then
        processMatches r text ms seen res (emails ++ [m])
      else if v m [] text && !(seen.contains m) then
        processMatches r text ms (m :: seen) (bump res r.name) emails
      else
        processMatches r text ms seen res emails
    | none =>
      if !(seen.contains m) then
        processMatches r text ms (m :: seen) (bump res r.name) emails
      else
        processMatches r text ms seen res emails

/-- One iteration of the `for (const pattern of PATTERNS)` loop. -/
def applyRule (text : List Char) (acc : (Category → Nat) × List (List Char)) (r : Rule) :
    (Category → Nat) × List (List Char) :=
  processMatches r text (allMatches r.regex text) [] acc.1 acc.2

/-- Number of distinct elements of a list of matches (the size of the JS
`Set` built from it). -/
def uniqueCount : List (List Char) → List (List Char) → Nat
  | [], _ => 0
  | m :: ms, seen =>
    if seen.contains m then uniqueCount ms seen else uniqueCount ms (m :: seen) + 1

/-- The final bulk-email promotion of `scanText`: flag only when there are at
least 3 raw email hits and at least 3 distinct ones, reporting the distinct
count. -/
def promoteBulk (acc : (Category → Nat) × List (List Char)) : Category → Nat :=
  if 3 ≤ acc.2.length then
    if 3 ≤ uniqueCount acc.2 [] then
      fun c => if c = Category.bulkEmail then uniqueCount acc.2 [] else acc.1 c
    else acc.1
  else acc.1

/-- `scanText`, parameterised by the rule list (the source iterates the
static `PATTERNS`; the parameter exposes rule-order insensitivity).  Result
is the category→count mapping, `0` meaning "absent". -/
def scanTextWith (rules : List Rule) (text : List Char) : Category → Nat :=
  if text.length = 0 then fun _ => 0
  else if text.length > MAX_SCAN_LENGTH then fun _ => 0
  else promoteBulk (rules.foldl (applyRule text) (fun _ => 0, []))

/-- `scanText` of the part_002 generation (`!text` for a string means
"empty"; the non-string guard is `scanValue`). -/
def scanText (text : List Char) : Category → Nat :=
  scanTextWith PATTERNS text

/-- A JS value passed to `scanText`: either a string or a non-string, for the
`typeof text !== 'string'` guard. -/
inductive JSInput where
  | str : List Char → JSInput
  | nonString : JSInput

/-- `scanText` including the non-string guard. -/
def scanValue : JSInput → Category → Nat
  | JSInput.str s => scanText s
  | JSInput.nonString => fun _ => 0

/-- `Object.keys(matches).length === 0` on a scan result. -/
def resIsEmpty (r : Category → Nat) : Bool :=
  allCategories.all (fun c => r c == 0)

end PromptShield

namespace PromptShield

/-! ## Luhn, spec side

An independent rendering of the Luhn checksum for the refinement statement of
the credit-card claim: over the reversed digit sequence, every second digit
(starting with the second) is doubled, with nine subtracted above nine. -/

/-- Double a digit, subtracting 9 above 9. -/
def luhnDouble (d : Nat) : Nat := if 2 * d > 9 then 2 * d - 9 else 2 * d

/-- Luhn sum of a reversed digit sequence, two digits at a time. -/
def luhnSpecSum : List Nat → Nat
  | [] => 0
  | [d] => d
  | d :: e :: rest => d + luhnDouble e + luhnSpecSum rest

/-- Digit-only form of a candidate match (`numStr.replace(/\D/g, '')`). -/
def digitsOf (m : List Char) : List Char := m.filter (fun c => c.isDigit)

/-! ## Helper definitions for the scanner lemmas -/

/-- Number of matches the per-rule loop counts: validated (or validator-less)
matches not yet in the per-rule `seen` set; bulk-email matches are never
counted here. -/
def countNew (r : Rule) (text : List Char) : List (List Char) → List (List Char) → Nat
  | [], _ => 0
  | m :: ms, seen =>
    match r.validate with
    | some v =>
      if r.name = Category.bulkEmail then countNew r text ms seen
      else if v m [] text && !(seen.contains m) then countNew r text ms (m :: seen) + 1
      else countNew r text ms seen
    | none =>
      if !(seen.contains m) then countNew r text ms (m :: seen) + 1
      else countNew r text ms seen

/-- Contribution of one rule to one category of the result map. -/
def contribOf (r : Rule) (text : List Char) (c : Category) : Nat :=
  if r.name = c then countNew r text (allMatches r.regex text) [] else 0

/-- The raw matches a rule appends to the accumulated email list. -/
def emailsOf (r : Rule) (ms : List (List Char)) : List (List Char) :=
  match r.validate with
  | some _ => if r.name = Category.bulkEmail then ms else []
  | none => []

/-- The email matches of a text: raw hits of the bulk-email matcher. -/
def emailMatchesOf (t : List Char) : List (List Char) :=
  allMatches bulkEmailRule.regex t

/-- All candidate credit-card matches of a text, across the four credit-card
rules. -/
def ccCandidates (t : List Char) : List (List Char) :=
  allMatches ccPlainRule.regex t ++ allMatches ccSpacedRule.regex t ++
    allMatches ccDashedRule.regex t ++ allMatches ccAmexRule.regex t

/-- `\b` holds between `pre` and a word character: `pre` is empty or ends in
a non-word character. -/
def boundaryBefore (pre : List Char) : Bool :=
  match pre.getLast? with
  | none => true
  | some c => !isWordChar c

/-- `\b` holds between a word character and `post`: `post` is empty or
starts with a non-word character. -/
def boundaryAfter (post : List Char) : Bool :=
  match post.head? with
  | none => true
  | some c => !isWordChar c

/-- A 16-digit card in 4-4-4-4 surface form with separator `sep`. -/
def grouped4 (g1 g2 g3 g4 : List Char) (sep : Char) : List Char :=
  g1 ++ sep :: (g2 ++ sep :: (g3 ++ sep :: g4))

/-! ## The submission guard (part_002 generation)

The DOM and the storage collaborator are abstracted into environment records;
`scanText` is the real scanner above.  The handlers are modelled as
transition functions (click path) and as effect traces (keyboard path, where
the claims are about effect ordering). -/

/-- `text.trim()` (whitespace restricted to its ASCII portion). -/
def jsTrim (t : List Char) : List Char :=
  ((t.dropWhile isSpaceChar).reverse.dropWhile isSpaceChar).reverse

/-- Guard state: the `allowNextSend` one-shot bypass flag. -/
structure GuardState where
  allowNextSend : Bool
deriving DecidableEq, Repr

/-- Environment of one click event: whether the target is inside the banner,
whether it is a send-like control, the active prompt input and its text (or
`none` when `findPromptInput` misses), and the persisted enabled flag. -/
structure ClickEnv where
  targetInBanner : Bool
  targetIsSend : Bool
  inputText : Option (List Char)
  enabled : Bool
deriving DecidableEq

/-- How the capture-phase click listener disposes of one click. -/
inductive ClickOutcome where
  | bypassed
  | ignoredBanner
  | notSend
  | noInput
  | blankText
  | cleanScan
  | notEnabled
  | intercepted
deriving DecidableEq, Repr

/-- The non-bypass checks of the capture-phase `click` listener: banner
exclusion, send-control test, input lookup, blank test, scan, and — via
`handlePotentialSubmit` — the enabled check, intercepting on a non-empty
result.  (`handlePotentialSubmit` re-reads the input and re-scans; the
environment is constant within the turn, so both reads coincide here.)
None of these branches mutates the guard state. -/
def clickChecks (e : ClickEnv) : ClickOutcome :=
  if e.targetInBanner then ClickOutcome.ignoredBanner
  else if !e.targetIsSend then ClickOutcome.notSend
  else
    match e.inputText with
    | none => ClickOutcome.noInput
    | some text =>
      if (jsTrim text).isEmpty then ClickOutcome.blankText
      else if resIsEmpty (scanText text) then ClickOutcome.cleanScan
      else if !e.enabled then ClickOutcome.notEnabled
      else ClickOutcome.intercepted

/-- The capture-phase `click` listener of the part_002 generation: consume
the one-shot bypass first (`if (allowNextSend) { allowNextSend = false;
return; }`); otherwise run the guard checks, which leave the state
unchanged. -/
def clickStep (s : GuardState) (e : ClickEnv) : GuardState × ClickOutcome :=
  if s.allowNextSend then ({ allowNextSend := false }, ClickOutcome.bypassed)
  else (s, clickChecks e)

/-- Fold `clickStep` over a sequence of click events. -/
def runClicks : GuardState → List ClickEnv → GuardState × List ClickOutcome
  | s, [] => (s, [])
  | s, e :: es =>
    let so := clickStep s e
    let rest := runClicks so.1 es
    (rest.1, so.2 :: rest.2)

/-- Replayed submission actions a confirm-send callback emits. -/
inductive ReplayAction where
  | clickReplay
  | enterReplay
  | fallbackClick
deriving DecidableEq, Repr

/-- Actions the click-path confirm-send callback emits:
`if (lastSendButton) lastSendButton.click()`. -/
def clickConfirmReplays (lastSendButtonSet : Bool) : List ReplayAction :=
  if lastSendButtonSet then [ReplayAction.clickReplay] else []

/-- The click-path confirm-send callback (`onSendAnyway` of
`handlePotentialSubmit`): set `allowNextSend`, then replay the stored click,
which is processed synchronously by the capture-phase click listener. -/
def confirmSendClick (s : GuardState) (e : ClickEnv) : GuardState × ClickOutcome :=
  clickStep { s with allowNextSend := true } e

/-- Actions the keyboard-path confirm-send callback emits: the synthetic
Enter re-dispatch, plus — after `SEND_RETRY_DELAY_MS` — a click on a matching
send button when one exists and the input still has text. -/
def keyConfirmReplays (fallbackButtonFound textStillNonEmpty : Bool) : List ReplayAction :=
  ReplayAction.enterReplay ::
    (if fallbackButtonFound && textStillNonEmpty then [ReplayAction.fallbackClick] else [])

/-! ## Keydown handlers as effect traces -/

/-- Observable effects of a keydown handler, in program order.
`awaitEnabledRead` marks the `await getStorage()` suspension point: effects
before it run synchronously in the turn of the triggering event. -/
inductive Effect where
  | preventDefault
  | stopPropagation
  | awaitEnabledRead
  | redispatchEnter
  | showBanner
deriving DecidableEq, Repr

/-- Environment of one keydown event. -/
structure KeyEnv where
  keyIsEnter : Bool
  ctrlKey : Bool
  metaKey : Bool
  shiftKey : Bool
  inputText : Option (List Char)
  containsActive : Bool
  enabled : Bool
deriving DecidableEq

/-- `e.ctrlKey || e.metaKey || !e.shiftKey`. -/
def isSubmitChord (e : KeyEnv) : Bool := e.ctrlKey || e.metaKey || !e.shiftKey

/-- Effect trace of the part_002 capture-phase `keydown` listener: guard
checks, then `preventDefault` / `stopPropagation` synchronously, then the
async IIFE reading the enabled flag, re-dispatching Enter on pass-through and
showing the banner on a non-empty scan. -/
def keydownTrace2 (e : KeyEnv) : List Effect :=
  if !e.keyIsEnter then []
  else if !isSubmitChord e then []
  else
    match e.inputText with
    | none => []
    | some text =>
      if !e.containsActive then []
      else if (jsTrim text).isEmpty then []
      else
        [Effect.preventDefault, Effect.stopPropagation, Effect.awaitEnabledRead] ++
          (if !e.enabled then [Effect.redispatchEnter]
           else if resIsEmpty (scanText text) then [Effect.redispatchEnter]
           else [Effect.showBanner])

/-- Effect trace of the part_001 capture-phase `keydown` listener: the same
guard checks, but the enabled flag is awaited and the scan run *before*
`preventDefault`, and pass-through paths simply return. -/
def keydownTrace1 (e : KeyEnv) : List Effect :=
  if !e.keyIsEnter then []
  else if !isSubmitChord e then []
  else
    match e.inputText with
    | none => []
    | some text =>
      if !e.containsActive then []
      else if (jsTrim text).isEmpty then []
      else
        Effect.awaitEnabledRead ::
          (if !e.enabled then []
           else if resIsEmpty (scanText text) then []
           else [Effect.preventDefault, Effect.stopPropagation, Effect.showBanner])

/-- A trace cancels the native default synchronously: walking the effects in
program order, `preventDefault` is reached before any awaited work. -/
def cancelsBeforeAwait : List Effect → Bool
  | [] => false
  | Effect.preventDefault :: _ => true
  | Effect.awaitEnabledRead :: _ => false
  | _ :: rest => cancelsBeforeAwait rest

/-! ## Storage helpers (part_002 content script and part_000 popup) -/

/-- Persisted counts are untrusted JS values: a number or anything else. -/
inductive JVal where
  | num : ℚ → JVal
  | nonNum : JVal
deriving DecidableEq

/-- Numeric view used by the sort comparator (only ever applied to entries
that passed the numeric filter). -/
def jvalNum : JVal → ℚ
  | JVal.num q => q
  | JVal.nonNum => 0

/-- `STORAGE_DEFAULTS` of the part_002 generation. -/
structure StorageState where
  enabled : Bool
  sessionCounts : List (String × JVal)
deriving DecidableEq

/-- `{ enabled: true, sessionCounts: {} }`. -/
def STORAGE_DEFAULTS : StorageState := { enabled := true, sessionCounts := [] }

/-- The storage collaborator as seen by one call: the API may be absent
(`storage === null`), the awaited call may throw with some message, or it may
deliver data (the stored `enabled` value, possibly unset, and the stored
counts object). -/
inductive StorageEnv where
  | absent
  | failing : String → StorageEnv
  | avail : Option Bool → List (String × JVal) → StorageEnv

/-- Whether `sub` occurs at the start of `l`. -/
def isPrefixL : List Char → List Char → Bool
  | [], _ => true
  | _ :: _, [] => false
  | a :: as, b :: bs => a == b && isPrefixL as bs

/-- `String.prototype.includes`: whether `sub` occurs contiguously in `l`. -/
def includesL (sub : List Char) : List Char → Bool
  | [] => sub.isEmpty
  | c :: cs => isPrefixL sub (c :: cs) || includesL sub cs

/-- The caught-message test:
`msg.includes('Extension context invalidated') || msg.includes('context invalidated')`. -/
def contextInvalid (msg : String) : Bool :=
  includesL "Extension context invalidated".data msg.data ||
    includesL "context invalidated".data msg.data

/-- `getStorage` / `loadState`: defaults when the API is absent, defaults on
a context-invalidated failure, rethrow otherwise, and
`(enabled ?? true) !== false` on delivered data. -/
def getStorage : StorageEnv → Except String StorageState
  | StorageEnv.absent => Except.ok STORAGE_DEFAULTS
  | StorageEnv.failing msg =>
    if contextInvalid msg then Except.ok STORAGE_DEFAULTS else Except.error msg
  | StorageEnv.avail e counts => Except.ok { enabled := e.getD true, sessionCounts := counts }

/-- `setStorage`: a no-op when the API is absent, swallowed on a
context-invalidated failure, rethrow otherwise. -/
def setStorage : StorageEnv → Except String Unit
  | StorageEnv.absent => Except.ok ()
  | StorageEnv.failing msg =>
    if contextInvalid msg then Except.ok () else Except.error msg
  | StorageEnv.avail _ _ => Except.ok ()

/-! ## Popup rendering -/

/-- `VALID_CATEGORIES` of the part_000 popup. -/
def VALID_CATEGORIES : List String :=
  ["API keys", "Private keys", "Passwords", "Credit cards", "Social Security Numbers",
   "Bulk email addresses", "Internal IP addresses", "JWT tokens", ".env file contents",
   "Connection strings"]

/-- The part_000 filter:
`VALID_CATEGORIES.has(cat) && typeof n === 'number' && n > 0`. -/
def validEntry (e : String × JVal) : Bool :=
  VALID_CATEGORIES.contains e.1 &&
    (match e.2 with
     | JVal.num q => decide (0 < q)
     | JVal.nonNum => false)

/-- Stable insertion into a count-descending list (the element goes before
strictly smaller counts and after earlier equal ones), modelling the stable
JS `sort((a, b) => b[1] - a[1])`. -/
def insertByDesc (e : String × JVal) : List (String × JVal) → List (String × JVal)
  | [] => [e]
  | x :: xs =>
    if jvalNum x.2 ≤ jvalNum e.2 then e :: x :: xs else x :: insertByDesc e xs

/-- Stable sort by descending count. -/
def sortByCountDesc : List (String × JVal) → List (String × JVal)
  | [] => []
  | x :: xs => insertByDesc x (sortByCountDesc xs)

/-- `renderCounts` of the part_000 popup, as the list of entries in render
order (`none` is the `!sessionCounts || typeof sessionCounts !== 'object'`
guard; the HTML and `Math.floor` display are presentation). -/
def renderCountsNew : Option (List (String × JVal)) → List (String × JVal)
  | none => []
  | some l => sortByCountDesc (l.filter validEntry)

/-- `renderCounts` of the older `popup.js`: only `n > 0` is checked — no
category membership and no `typeof` check.  (`n > 0` on a non-number is
host-coercion-dependent; the inputs considered here are numeric.) -/
def renderCountsOld (l : List (String × JVal)) : List (String × JVal) :=
  sortByCountDesc (l.filter (fun e =>
    match e.2 with
    | JVal.num q => decide (0 < q)
    | JVal.nonNum => false))

end PromptShield

namespace PromptShield

/-! ## Scanner decomposition lemmas -/

theorem bump_apply (res : Category → Nat) (c₀ c : Category) :
    bump res c₀ c = res c + (if c₀ = c then 1 else 0) := by
  by_cases h : c₀ = c
  · subst h; simp [bump]
  · have h' : ¬(c = c₀) := fun hh => h hh.symm
    simp [bump, h, h']

theorem contains_eq_decide (seen : List (List Char)) (m : List Char) :
    seen.contains m = decide (m ∈ seen) := by
  induction seen with
  | nil => simp
  | cons x xs ih => simp [List.contains_cons, ih]

theorem processMatches_res (r : Rule) (text : List Char) (ms : List (List Char)) :
    ∀ (seen : List (List Char)) (res : Category → Nat) (emails : List (List Char))
      (c : Category),
      (processMatches r text ms seen res emails).1 c =
        res c + (if r.name = c then countNew r text ms seen else 0) := by
  induction ms with
  | nil => intro seen res emails c; simp [processMatches, countNew]
  | cons m ms ih =>
    intro seen res emails c
    rcases hv : r.validate with _ | v
    · by_cases hseen : m ∈ seen <;> by_cases hc : r.name = c <;>
        simp [processMatches, countNew, hv, hseen, hc, contains_eq_decide, ih, bump_apply] <;>
        omega
    · by_cases hbulk : r.name = Category.bulkEmail
      · simp [processMatches, countNew, hv, hbulk, ih]
      · by_cases hc : r.name = c
        · subst hc
          by_cases hVal : v m [] text = true <;> by_cases hseen : m ∈ seen <;>
            simp [processMatches, countNew, hv, hbulk, hVal, hseen, contains_eq_decide,
              ih, bump_apply] <;>
            omega
        · by_cases hVal : v m [] text = true <;> by_cases hseen : m ∈ seen <;>
            simp [processMatches, countNew, hv, hbulk, hVal, hseen, hc, contains_eq_decide,
              ih, bump_apply] <;>
            omega

theorem processMatches_emails (r : Rule) (text : List Char) (ms : List (List Char)) :
    ∀ (seen : List (List Char)) (res : Category → Nat) (emails : List (List Char)),
      (processMatches r text ms seen res emails).2 = emails ++ emailsOf r ms := by
  induction ms with
  | nil =>
    intro seen res emails
    rcases hv : r.validate with _ | v <;> simp [processMatches, emailsOf, hv]
  | cons m ms ih =>
    intro seen res emails
    rcases hv : r.validate with _ | v
    · by_cases hseen : m ∈ seen <;>
        simp [processMatches, emailsOf, hv, hseen, contains_eq_decide, ih]
    · by_cases hbulk : r.name = Category.bulkEmail
      · simp [processMatches, emailsOf, hv, hbulk, ih]
      · by_cases hVal : v m [] text = true
        · by_cases hseen : m ∈ seen <;>
            simp [processMatches, emailsOf, hv, hbulk, hVal, hseen, contains_eq_decide, ih]
        · simp [processMatches, emailsOf, hv, hbulk, hVal, contains_eq_decide, ih]

theorem applyRule_res (text : List Char) (acc : (Category → Nat) × List (List Char))
    (r : Rule) (c : Category) :
    (applyRule text acc r).1 c = acc.1 c + contribOf r text c := by
  simp [applyRule, contribOf, processMatches_res]

theorem applyRule_emails (text : List Char) (acc : (Category → Nat) × List (List Char))
    (r : Rule) :
    (applyRule text acc r).2 = acc.2 ++ emailsOf r (allMatches r.regex text) := by
  simp [applyRule, processMatches_emails]

theorem foldl_res (text : List Char) (rules : List Rule) :
    ∀ (acc : (Category → Nat) × List (List Char)) (c : Category),
      (rules.foldl (applyRule text) acc).1 c =
        acc.1 c + (rules.map (fun r => contribOf r text c)).sum := by
  induction rules with
  | nil => intro acc c; simp
  | cons r rules ih =>
    intro acc c
    simp only [List.foldl_cons, List.map_cons, List.sum_cons, ih, applyRule_res]
    omega

theorem foldl_emails (text : List Char) (rules : List Rule) :
    ∀ (acc : (Category → Nat) × List (List Char)),
      (rules.foldl (applyRule text) acc).2 =
        acc.2 ++ (rules.map (fun r => emailsOf r (allMatches r.regex text))).join := by
  induction rules with
  | nil => intro acc; simp
  | cons r rules ih =>
    intro acc
    simp [List.foldl_cons, ih, applyRule_emails]

theorem countNew_bulk (r : Rule) (text : List Char) (v)
    (hv : r.validate = some v) (hbulk : r.name = Category.bulkEmail)
    (ms : List (List Char)) :
    ∀ seen, countNew r text ms seen = 0 := by
  induction ms with
  | nil => intro seen; simp [countNew]
  | cons m ms ih => intro seen; simp [countNew, hv, hbulk, ih]

/-- The accumulated email list of a full `scanText` run is exactly the raw
match list of the bulk-email rule. -/
theorem scan_emails (t : List Char) :
    (PATTERNS.foldl (applyRule t) (fun _ => 0, [])).2 = emailMatchesOf t := by
  rw [foldl_emails]
  simp [PATTERNS, emailsOf, apiKeyRule, privateKeyRule, passwordRule1, passwordRule2,
    ccPlainRule, ccSpacedRule, ccDashedRule, ccAmexRule, ssnRule, bulkEmailRule,
    internalIpRule, jwtRule, envFileRule, connectionStringRule, emailMatchesOf]

/-- The bulk-email count of `scanText` is the promotion of the distinct raw
email matches past the threshold of 3. -/
theorem scanText_bulk (t : List Char) (h0 : t.length ≠ 0)
    (hmax : t.length ≤ MAX_SCAN_LENGTH) :
    scanText t Category.bulkEmail =
      (if 3 ≤ (emailMatchesOf t).length then
        (if 3 ≤ uniqueCount (emailMatchesOf t) [] then uniqueCount (emailMatchesOf t) []
         else 0)
       else 0) := by
  have hres : (PATTERNS.foldl (applyRule t) (fun _ => 0, [])).1 Category.bulkEmail = 0 := by
    rw [foldl_res]
    simp [PATTERNS, contribOf, apiKeyRule, privateKeyRule, passwordRule1, passwordRule2,
      ccPlainRule, ccSpacedRule, ccDashedRule, ccAmexRule, ssnRule, internalIpRule,
      jwtRule, envFileRule, connectionStringRule,
      countNew_bulk bulkEmailRule t _ rfl rfl]
  unfold scanText scanTextWith promoteBulk
  rw [if_neg h0, if_neg (by omega)]
  simp only [scan_emails, hres]
  split
  · split
    · simp
    · exact hres
  · exact hres

/-! ## `uniqueCount` lemmas -/

theorem uniqueCount_cons (m : List Char) (ms seen : List (List Char)) :
    uniqueCount (m :: ms) seen =
      if m ∈ seen then uniqueCount ms seen else uniqueCount ms (m :: seen) + 1 := by
  by_cases h : m ∈ seen <;> simp [uniqueCount, contains_eq_decide, h]

theorem uniqueCount_le_length (l : List (List Char)) :
    ∀ seen, uniqueCount l seen ≤ l.length := by
  induction l with
  | nil => intro seen; simp [uniqueCount]
  | cons m ms ih =>
    intro seen
    rw [uniqueCount_cons]
    split
    · exact Nat.le_trans (ih seen) (by simp)
    · simpa using ih (m :: seen)

theorem uniqueCount_congr (l : List (List Char)) :
    ∀ seen₁ seen₂, (∀ x, x ∈ seen₁ ↔ x ∈ seen₂) →
      uniqueCount l seen₁ = uniqueCount l seen₂ := by
  induction l with
  | nil => intro seen₁ seen₂ _; rfl
  | cons m ms ih =>
    intro seen₁ seen₂ h
    rw [uniqueCount_cons, uniqueCount_cons]
    by_cases hm : m ∈ seen₁
    · rw [if_pos hm, if_pos ((h m).mp hm)]
      exact ih seen₁ seen₂ h
    · rw [if_neg hm, if_neg (fun hh => hm ((h m).mpr hh))]
      have : ∀ x, x ∈ m :: seen₁ ↔ x ∈ m :: seen₂ := by
        intro x; simp [h x]
      rw [ih _ _ this]

theorem uniqueCount_perm (l₁ l₂ : List (List Char)) (hp : l₁.Perm l₂) :
    ∀ seen, uniqueCount l₁ seen = uniqueCount l₂ seen := by
  induction hp with
  | nil => intro _; rfl
  | cons x _ ih =>
    intro seen
    simp only [uniqueCount_cons]
    by_cases hx : x ∈ seen <;> simp [hx, ih]
  | swap x y l =>
    intro seen
    simp only [uniqueCount_cons]
    by_cases hxy : x = y
    · subst hxy
      by_cases hx : x ∈ seen <;> simp [hx]
    · have hyx : ¬(y = x) := fun hh => hxy hh.symm
      by_cases hx : x ∈ seen <;> by_cases hy : y ∈ seen
      · simp [hx, hy]
      · simp [hx, hy, List.mem_cons, hxy, hyx]
      · simp [hx, hy, List.mem_cons, hxy, hyx]
      · rw [if_neg hy, if_neg hx, if_neg (by simp [List.mem_cons, hxy, hx]),
          if_neg (by simp [List.mem_cons, hyx, hy])]
        have hmem : ∀ z, z ∈ x :: y :: seen ↔ z ∈ y :: x :: seen := by
          intro z; simp only [List.mem_cons]; tauto
        rw [uniqueCount_congr l _ _ hmem]
  | trans _ _ ih₁ ih₂ =>
    intro seen
    rw [ih₁, ih₂]

/-! ## Rule-order insensitivity -/

theorem promoteBulk_congr (a b : (Category → Nat) × List (List Char))
    (h1 : ∀ c, a.1 c = b.1 c) (h2 : a.2.Perm b.2) (c : Category) :
    promoteBulk a c = promoteBulk b c := by
  unfold promoteBulk
  rw [h2.length_eq, uniqueCount_perm _ _ h2 []]
  split
  · split
    · by_cases hc : c = Category.bulkEmail <;> simp [hc, h1]
    · exact h1 c
  · exact h1 c

theorem scanTextWith_perm (rules : List Rule) (hp : rules.Perm PATTERNS)
    (t : List Char) (c : Category) :
    scanTextWith rules t c = scanText t c := by
  unfold scanText scanTextWith
  by_cases h0 : t.length = 0
  · rw [if_pos h0, if_pos h0]
  · by_cases hmax : t.length > MAX_SCAN_LENGTH
    · rw [if_neg h0, if_neg h0, if_pos hmax, if_pos hmax]
    · rw [if_neg h0, if_neg h0, if_neg hmax, if_neg hmax]
      apply promoteBulk_congr
      · intro c'
        rw [foldl_res, foldl_res]
        exact congrArg _ (List.Perm.sum_eq (hp.map _))
      · rw [foldl_emails, foldl_emails]
        simpa using List.Perm.join (hp.map _)

/-! ## Claim C4 — bulk-email threshold -/

/-- C4: for every scannable text whose set of distinct email-address matches
has size at most 2, the scan result has no Bulk Email Addresses entry; with 3
or more distinct matches, the entry is present with count equal to the number
of distinct addresses, regardless of repetitions. -/
theorem C4_bulk_email_threshold (t : List Char) (hmax : t.length ≤ MAX_SCAN_LENGTH) :
    (uniqueCount (emailMatchesOf t) [] ≤ 2 → scanText t Category.bulkEmail = 0) ∧
    (3 ≤ uniqueCount (emailMatchesOf t) [] →
      scanText t Category.bulkEmail = uniqueCount (emailMatchesOf t) []) := by
  by_cases h0 : t.length = 0
  · have ht : t = [] := List.length_eq_zero.mp h0
    subst ht
    constructor
    · intro _; rfl
    · intro h3
      have : emailMatchesOf [] = [] := rfl
      rw [this] at h3
      simp [uniqueCount] at h3
  · constructor
    · intro h2
      rw [scanText_bulk t h0 hmax]
      split
      · split
        · omega
        · rfl
      · rfl
    · intro h3
      rw [scanText_bulk t h0 hmax]
      have hlen : 3 ≤ (emailMatchesOf t).length :=
        Nat.le_trans h3 (uniqueCount_le_length _ _)
      rw [if_pos hlen, if_pos h3]

/-- Witness for C4 at a concrete text with three distinct addresses. -/
theorem C4_bulk_email_threshold_witness :
    3 ≤ uniqueCount (emailMatchesOf "a@x.com b@y.com c@z.com".data) [] ∧
    scanText "a@x.com b@y.com c@z.com".data Category.bulkEmail =
      uniqueCount (emailMatchesOf "a@x.com b@y.com c@z.com".data) [] :=
  ⟨by decide, (C4_bulk_email_threshold "a@x.com b@y.com c@z.com".data (by decide)).2
    (by decide)⟩

/-! ## Claim C5 — input guards -/

/-- C5: for every input that is empty, not a string, or longer than
`MAX_SCAN_LENGTH`, the scan returns an empty result regardless of content. -/
theorem C5_scan_guards (t : List Char) (c : Category)
    (h : t.length = 0 ∨ MAX_SCAN_LENGTH < t.length) :
    scanText t c = 0 ∧ scanValue JSInput.nonString c = 0 := by
  refine ⟨?_, rfl⟩
  unfold scanText scanTextWith
  rcases h with h | h
  · rw [if_pos h]
  · rw [if_neg (by omega), if_pos (by omega)]

/-- Witness for C5 at an oversized concrete input. -/
theorem C5_scan_guards_witness :
    MAX_SCAN_LENGTH < (List.replicate 500001 'a').length ∧
    scanText (List.replicate 500001 'a') Category.password = 0 :=
  ⟨by rw [List.length_replicate]; norm_num [MAX_SCAN_LENGTH],
   (C5_scan_guards (List.replicate 500001 'a') Category.password
      (Or.inr (by rw [List.length_replicate]; norm_num [MAX_SCAN_LENGTH]))).1⟩

/-! ## Claim C6 — determinism and order-insensitivity -/

/-- C6: `scanText` is deterministic (two runs agree definitionally — the
embedding is a pure function, so scanning has no side effects), and the
result mapping does not depend on the order in which the pattern rules are
evaluated. -/
theorem C6_scan_deterministic (t : List Char) (c : Category) (rules : List Rule)
    (hp : rules.Perm PATTERNS) :
    scanText t c = scanText t c ∧ scanTextWith rules t c = scanText t c :=
  ⟨rfl, scanTextWith_perm rules hp t c⟩

/-- Witness for C6: evaluating the catalog with its first two rules swapped
agrees with `scanText` on a concrete text. -/
theorem C6_scan_deterministic_witness :
    scanTextWith
      (privateKeyRule :: apiKeyRule :: [passwordRule1, passwordRule2,
        ccPlainRule, ccSpacedRule, ccDashedRule, ccAmexRule,
        ssnRule, bulkEmailRule, internalIpRule, jwtRule, envFileRule,
        connectionStringRule]) "123456789".data Category.ssn =
      scanText "123456789".data Category.ssn :=
  (C6_scan_deterministic "123456789".data Category.ssn _
    (List.Perm.swap apiKeyRule privateKeyRule _)).2

/-! ## Claim C10 — SSN separators are optional -/

/-- C10: the Social Security Number matcher accepts a bare 9-digit run with
no separators: scanning the text `123456789` reports the Social Security
Numbers category with count at least 1. -/
theorem C10_bare_ssn_detected :
    1 ≤ scanText "123456789".data Category.ssn := by decide

/-! ## Claim C7 — one-shot bypass consumption -/

/-- Number of bypassed outcomes in a list. -/
def countBypassed (os : List ClickOutcome) : Nat :=
  os.countP (fun o => o == ClickOutcome.bypassed)

theorem clickChecks_ne_bypassed (e : ClickEnv) :
    clickChecks e ≠ ClickOutcome.bypassed := by
  unfold clickChecks
  split
  · simp
  · split
    · simp
    · split
      · simp
      · split
        · simp
        · split
          · simp
          · split <;> simp

theorem runClicks_false_map (es : List ClickEnv) :
    (runClicks { allowNextSend := false } es).2 = es.map clickChecks := by
  induction es with
  | nil => rfl
  | cons e' es ih =>
    have hrun : (runClicks { allowNextSend := false } (e' :: es)).2 =
        clickChecks e' :: (runClicks { allowNextSend := false } es).2 := rfl
    rw [hrun, ih, List.map_cons]

/-- C7: the one-shot bypass (`allowNextSend`) is consumed by the very next
click trigger — the guard is back in the unarmed state afterwards — every
later trigger of a decision-free run is processed by the normal scan-based
checks again, and at most one trigger of the whole run is bypassed. -/
theorem C7_bypass_consumed_once (e : ClickEnv) (es : List ClickEnv) :
    clickStep { allowNextSend := true } e =
      ({ allowNextSend := false }, ClickOutcome.bypassed) ∧
    (runClicks { allowNextSend := true } (e :: es)).2 =
      ClickOutcome.bypassed :: es.map clickChecks ∧
    countBypassed (runClicks { allowNextSend := true } (e :: es)).2 ≤ 1 := by
  have h2 : (runClicks { allowNextSend := true } (e :: es)).2 =
      ClickOutcome.bypassed :: (runClicks { allowNextSend := false } es).2 := rfl
  have h2' : (runClicks { allowNextSend := true } (e :: es)).2 =
      ClickOutcome.bypassed :: es.map clickChecks := by
    rw [h2, runClicks_false_map]
  refine ⟨rfl, h2', ?_⟩
  rw [h2']
  unfold countBypassed
  have h0 : (es.map clickChecks).countP (fun o => o == ClickOutcome.bypassed) = 0 := by
    rw [List.countP_eq_zero]
    intro a ha
    rcases List.mem_map.mp ha with ⟨e', _, he⟩
    simpa using he ▸ clickChecks_ne_bypassed e'
  simp [h0]

/-! ## Claim C8 — storage degrades to safe defaults -/

/-- C8: when the storage API is absent or a call fails with a
context-invalidated error, reading yields the safe defaults (enabled,
empty counts) and writing completes as a no-op; no error is propagated. -/
theorem C8_storage_safe_defaults (env : StorageEnv)
    (h : env = StorageEnv.absent ∨
      ∃ m, env = StorageEnv.failing m ∧ contextInvalid m = true) :
    getStorage env = Except.ok { enabled := true, sessionCounts := [] } ∧
    setStorage env = Except.ok () := by
  rcases h with h | ⟨m, h, hm⟩ <;> subst h
  · exact ⟨rfl, rfl⟩
  · constructor <;> simp [getStorage, setStorage, STORAGE_DEFAULTS, hm]

/-- Witness for C8 at the concrete teardown error message. -/
theorem C8_storage_safe_defaults_witness :
    contextInvalid "Extension context invalidated" = true ∧
    getStorage (StorageEnv.failing "Extension context invalidated") =
      Except.ok { enabled := true, sessionCounts := [] } :=
  ⟨by decide,
   (C8_storage_safe_defaults (StorageEnv.failing "Extension context invalidated")
      (Or.inr ⟨"Extension context invalidated", rfl, by decide⟩)).1⟩

/-! ## Claim C9 — popup rendering filters and sorts -/

theorem insertByDesc_perm (e : String × JVal) (l : List (String × JVal)) :
    (insertByDesc e l).Perm (e :: l) := by
  induction l with
  | nil => exact List.Perm.refl _
  | cons x xs ih =>
    unfold insertByDesc
    split
    · exact List.Perm.refl _
    · exact List.Perm.trans (List.Perm.cons x ih) (List.Perm.swap e x xs)

theorem sortByCountDesc_perm (l : List (String × JVal)) :
    (sortByCountDesc l).Perm l := by
  induction l with
  | nil => exact List.Perm.refl _
  | cons x xs ih =>
    exact List.Perm.trans (insertByDesc_perm x (sortByCountDesc xs))
      (List.Perm.cons x ih)

theorem insertByDesc_sorted (e : String × JVal) (l : List (String × JVal))
    (h : List.Pairwise (fun a b => jvalNum b.2 ≤ jvalNum a.2) l) :
    List.Pairwise (fun a b => jvalNum b.2 ≤ jvalNum a.2) (insertByDesc e l) := by
  induction l with
  | nil => simp [insertByDesc]
  | cons x xs ih =>
    unfold insertByDesc
    split
    · rename_i hle
      refine List.Pairwise.cons ?_ h
      intro y hy
      rcases List.mem_cons.mp hy with h1 | h1
      · subst h1
        exact hle
      · exact le_trans (List.rel_of_pairwise_cons h h1) hle
    · rename_i hgt
      refine List.Pairwise.cons ?_ (ih (List.Pairwise.of_cons h))
      intro y hy
      rcases List.mem_cons.mp ((insertByDesc_perm e xs).mem_iff.mp hy) with h1 | h1
      · subst h1
        exact le_of_lt (lt_of_not_le hgt)
      · exact List.rel_of_pairwise_cons h h1

theorem sortByCountDesc_sorted (l : List (String × JVal)) :
    List.Pairwise (fun a b => jvalNum b.2 ≤ jvalNum a.2) (sortByCountDesc l) := by
  induction l with
  | nil => simp [sortByCountDesc]
  | cons x xs ih => exact insertByDesc_sorted x (sortByCountDesc xs) ih

/-- C9 (amended to the part_000 popup): rendering filters out every entry
whose category is outside the fixed ten-category enumeration or whose count
is non-numeric or non-positive — and nothing else — and renders the surviving
entries sorted by descending count. -/
theorem C9_render_filter_sorted (l : List (String × JVal)) :
    (∀ p ∈ renderCountsNew (some l),
      p.1 ∈ VALID_CATEGORIES ∧ ∃ q : ℚ, p.2 = JVal.num q ∧ 0 < q) ∧
    List.Pairwise (fun a b => jvalNum b.2 ≤ jvalNum a.2) (renderCountsNew (some l)) ∧
    (renderCountsNew (some l)).Perm (l.filter validEntry) := by
  refine ⟨?_, sortByCountDesc_sorted _, sortByCountDesc_perm _⟩
  intro p hp
  have hp' : p ∈ l.filter validEntry := (sortByCountDesc_perm _).mem_iff.mp hp
  have hv : validEntry p = true := List.of_mem_filter hp'
  unfold validEntry at hv
  rcases Bool.and_eq_true_iff.mp hv with ⟨h1, h2⟩
  constructor
  · have := List.elem_iff.mp h1
    simpa using this
  · rcases hq : p.2 with q | _
    · rw [hq] at h2
      exact ⟨q, rfl, by simpa using h2⟩
    · rw [hq] at h2
      simp at h2

/-- Witness for C9: rendering a concrete mixed list is a permutation of its
valid entries. -/
theorem C9_render_filter_sorted_witness :
    (renderCountsNew (some [("Bogus", JVal.num 5), ("Passwords", JVal.num 2),
        ("JWT tokens", JVal.nonNum)])).Perm
      (([("Bogus", JVal.num 5), ("Passwords", JVal.num 2),
        ("JWT tokens", JVal.nonNum)] : List (String × JVal)).filter validEntry) :=
  (C9_render_filter_sorted [("Bogus", JVal.num 5), ("Passwords", JVal.num 2),
    ("JWT tokens", JVal.nonNum)]).2.2

/-- C9 counterexample: the older `popup.js` renderer keeps an entry whose
category is outside the fixed enumeration (it only checks `n > 0`), so the
claim is false of that presentation surface. -/
theorem C9_counterexample :
    renderCountsOld [("Bogus", JVal.num 5)] = [("Bogus", JVal.num 5)] ∧
    "Bogus" ∉ VALID_CATEGORIES := by
  constructor
  · rfl
  · decide

/-! ## Claim C1 — synchronous cancellation on the keyboard path -/

/-- C1 (amended to the part_002 generation's handler): on a keyboard
confirmation chord with a focused input holding non-blank text, the handler
emits `preventDefault` and `stopPropagation` synchronously, strictly before
the awaited read of the enabled flag or any other awaited work. -/
theorem C1_keydown_sync_cancel (e : KeyEnv) (text : List Char)
    (henter : e.keyIsEnter = true) (hchord : isSubmitChord e = true)
    (hinput : e.inputText = some text) (hactive : e.containsActive = true)
    (hblank : (jsTrim text).isEmpty = false) :
    (∃ rest, keydownTrace2 e = Effect.preventDefault :: Effect.stopPropagation ::
      Effect.awaitEnabledRead :: rest) ∧
    cancelsBeforeAwait (keydownTrace2 e) = true := by
  have htr : keydownTrace2 e =
      Effect.preventDefault :: Effect.stopPropagation :: Effect.awaitEnabledRead ::
        (if !e.enabled then [Effect.redispatchEnter]
         else if resIsEmpty (scanText text) then [Effect.redispatchEnter]
         else [Effect.showBanner]) := by
    unfold keydownTrace2
    rw [henter, hchord, hinput, hactive]
    simp [hblank]
  refine ⟨⟨_, htr⟩, ?_⟩
  rw [htr]
  rfl

/-- Witness for C1 at a concrete chord, focus and text. -/
theorem C1_keydown_sync_cancel_witness :
    cancelsBeforeAwait (keydownTrace2
      { keyIsEnter := true, ctrlKey := false, metaKey := false, shiftKey := false,
        inputText := some "password=hunter2aa".data, containsActive := true,
        enabled := true }) = true :=
  (C1_keydown_sync_cancel
    { keyIsEnter := true, ctrlKey := false, metaKey := false, shiftKey := false,
      inputText := some "password=hunter2aa".data, containsActive := true,
      enabled := true } "password=hunter2aa".data (by rfl) (by rfl) (by rfl) (by rfl)
    (by decide)).2

/-- C1 counterexample: the part_001 generation's keydown handler — one of the
two handlers the claim covers — awaits the enabled flag (and scans) strictly
before cancelling the default, so the claim as stated is false of it: at a
concrete Enter chord with focused non-blank sensitive text, the awaited read
precedes `preventDefault` in the effect trace. -/
theorem C1_counterexample :
    keydownTrace1
      { keyIsEnter := true, ctrlKey := false, metaKey := false, shiftKey := false,
        inputText := some "password=hunter2aa".data, containsActive := true,
        enabled := true } =
      [Effect.awaitEnabledRead, Effect.preventDefault, Effect.stopPropagation,
       Effect.showBanner] ∧
    cancelsBeforeAwait (keydownTrace1
      { keyIsEnter := true, ctrlKey := false, metaKey := false, shiftKey := false,
        inputText := some "password=hunter2aa".data, containsActive := true,
        enabled := true }) = false := by
  constructor
  · decide
  · decide

/-! ## Claim C2 — confirm-send replays exactly one action -/

/-- C2 (amended to the click path): for a click-intercepted submission, the
confirm-send callback emits exactly one replayed click (`lastSendButton` is
the stored click target, so the replay list is the singleton), and processing
that replay through the click listener consumes the bypass and lets it
through without re-scanning or re-blocking, leaving the guard unarmed. -/
theorem C2_click_confirm_single_replay (s : GuardState) (e : ClickEnv) :
    clickConfirmReplays true = [ReplayAction.clickReplay] ∧
    confirmSendClick s e = ({ allowNextSend := false }, ClickOutcome.bypassed) :=
  ⟨rfl, rfl⟩

/-- C2 counterexample: the keyboard path violates the claim.  The keydown
listener consults no bypass flag (`keydownTrace2` does not even depend on the
guard state), so when the confirm-send callback re-dispatches the synthetic
Enter while focus is inside the input, the handler re-cancels and re-stops it
and — after the awaited read — re-scans the same text and re-shows the
banner instead of letting the replay through; moreover the callback emits two
replay actions (the Enter re-dispatch plus the delayed fallback click) when a
send button is found with text still present. -/
theorem C2_counterexample :
    (keyConfirmReplays true true).length = 2 ∧
    keydownTrace2
      { keyIsEnter := true, ctrlKey := false, metaKey := false, shiftKey := false,
        inputText := some "password=hunter2aa".data, containsActive := true,
        enabled := true } =
      [Effect.preventDefault, Effect.stopPropagation, Effect.awaitEnabledRead,
       Effect.showBanner] := by
  constructor
  · rfl
  · decide

/-! ## Claim C3 — credit-card detection.  Matcher lemmas. -/

theorem countLeading_append (p : Char → Bool) (l rest : List Char)
    (hl : ∀ c ∈ l, p c = true) :
    countLeading p (l ++ rest) = l.length + countLeading p rest := by
  induction l with
  | nil => simp
  | cons c cs ih =>
    have hc : p c = true := hl c (List.mem_cons_self c cs)
    have ih' := ih fun x hx => hl x (List.mem_cons_of_mem c hx)
    simp only [List.cons_append, countLeading, hc, if_true, List.append_eq, ih',
      List.length_cons]
    omega

theorem countLeading_head_not (p : Char → Bool) (rest : List Char)
    (h : ∀ c, rest.head? = some c → p c = false) :
    countLeading p rest = 0 := by
  cases rest with
  | nil => rfl
  | cons c cs =>
    have := h c rfl
    simp [countLeading, this]

theorem countLeading_get (p : Char → Bool) (l : List Char) :
    ∀ k, k < countLeading p l → ∃ c, l.get? k = some c ∧ p c = true := by
  induction l with
  | nil => intro k h; simp [countLeading] at h
  | cons c cs ih =>
    intro k h
    by_cases hc : p c = true
    · cases k with
      | zero => exact ⟨c, rfl, hc⟩
      | succ k =>
        simp only [countLeading, hc, if_true] at h
        exact ih k (by omega)
    · simp [countLeading, hc] at h

theorem repTry_lt (i lo : Nat) (k : Nat → Option Nat) :
    ∀ n, n < lo → repTry i lo k n = none := by
  intro n
  induction n with
  | zero => intro h; simp [repTry]; omega
  | succ n _ => intro h; simp [repTry, h]

theorem repTry_sound (i lo : Nat) (k : Nat → Option Nat) :
    ∀ n r, repTry i lo k n = some r →
      ∃ m, lo ≤ m ∧ m ≤ n ∧ k (i + m) = some r := by
  intro n
  induction n with
  | zero =>
    intro r h
    simp only [repTry] at h
    split at h
    · exact ⟨0, by omega, by omega, by simpa using h⟩
    · cases h
  | succ n ih =>
    intro r h
    simp only [repTry] at h
    split at h
    · cases h
    · rcases hk : k (i + (n + 1)) with _ | r'
      · rw [hk] at h
        rcases ih r h with ⟨m, h1, h2, h3⟩
        exact ⟨m, h1, by omega, h3⟩
      · rw [hk] at h
        cases h
        exact ⟨n + 1, by omega, le_refl _, hk⟩

theorem repTry_top (i lo : Nat) (k : Nat → Option Nat) (n : Nat) (r : Nat)
    (hk : k (i + n) = some r) (hlo : lo ≤ n) :
    repTry i lo k n = some r := by
  cases n with
  | zero =>
    have : lo = 0 := by omega
    simpa [repTry, this] using hk
  | succ n =>
    simp only [repTry, if_neg (by omega : ¬(n + 1 < lo)), hk]

theorem repTry_none (i lo : Nat) (k : Nat → Option Nat) :
    ∀ n, (∀ m, lo ≤ m → m ≤ n → k (i + m) = none) → repTry i lo k n = none := by
  intro n
  induction n with
  | zero =>
    intro h
    simp only [repTry]
    split
    · rename_i h0
      simpa using h 0 (by omega) (by omega)
    · rfl
  | succ n ih =>
    intro h
    simp only [repTry]
    split
    · rfl
    · rw [h (n + 1) (by omega) (le_refl _)]
      exact ih fun m h1 h2 => h m h1 (by omega)

theorem firstMatchFromF_sound (r : RE) (t : List Char) :
    ∀ fuel s b e, firstMatchFromF r t fuel s = some (b, e) →
      s ≤ b ∧ matchAt r t b = some e := by
  intro fuel
  induction fuel with
  | zero => intro s b e h; cases h
  | succ fuel ih =>
    intro s b e h
    simp only [firstMatchFromF] at h
    split at h
    · rename_i e' heq
      cases h
      exact ⟨le_refl _, heq⟩
    · split at h
      · rcases ih (s + 1) b e h with ⟨h1, h2⟩
        exact ⟨by omega, h2⟩
      · cases h

theorem firstMatchFromF_finds (r : RE) (t : List Char) :
    ∀ fuel s j e', s ≤ j → j < s + fuel → j ≤ t.length → matchAt r t j = some e' →
      ∃ b e, firstMatchFromF r t fuel s = some (b, e) ∧ s ≤ b ∧ b ≤ j := by
  intro fuel
  induction fuel with
  | zero => intro s j e' h1 h2; omega
  | succ fuel ih =>
    intro s j e' h1 h2 h3 hm
    rcases hs : matchAt r t s with _ | e₀
    · have hne : s ≠ j := fun hh => by rw [hh, hm] at hs; cases hs
      have hlt : s < t.length := by omega
      rcases ih (s + 1) j e' (by omega) (by omega) h3 hm with ⟨b, e, hb1, hb2, hb3⟩
      refine ⟨b, e, ?_, by omega, hb3⟩
      simp only [firstMatchFromF, hs, if_pos hlt]
      exact hb1
    · refine ⟨s, e₀, ?_, le_refl _, h1⟩
      simp only [firstMatchFromF, hs]

theorem firstMatchFromF_skip (r : RE) (t : List Char) :
    ∀ fuel s j e, (∀ i, s ≤ i → i < j → matchAt r t i = none) →
      matchAt r t j = some e → s ≤ j → j ≤ t.length → j + 1 - s ≤ fuel →
      firstMatchFromF r t fuel s = some (j, e) := by
  intro fuel
  induction fuel with
  | zero => intro s j e _ _ h1 _ h2; omega
  | succ fuel ih =>
    intro s j e hnone hm h1 hj h2
    by_cases hs : s = j
    · subst hs
      simp only [firstMatchFromF, hm]
    · have hn := hnone s (le_refl _) (by omega)
      have hlt : s < t.length := by omega
      simp only [firstMatchFromF, hn, if_pos hlt]
      exact ih (s + 1) j e (fun i hi1 hi2 => hnone i (by omega) hi2) hm (by omega) hj
        (by omega)

theorem isWordChar_of_digit (c : Char) (h : isDigitChar c = true) :
    isWordChar c = true := by
  unfold isDigitChar at h
  simp [isWordChar, Char.isAlphanum, h]

theorem not_digit_of_not_word (c : Char) (h : isWordChar c = false) :
    isDigitChar c = false := by
  by_cases hd : isDigitChar c = true
  · rw [isWordChar_of_digit c hd] at h
    cases h
  · simpa using hd

/-- `\b` holds where a non-word context meets the first word character of
`mid`. -/
theorem wb_before (pre mid : List Char) (c : Char) (hmid : mid.head? = some c)
    (hb : boundaryBefore pre = true) (hw : isWordChar c = true) :
    wordBoundaryAt (pre ++ mid) pre.length = true := by
  have hcur : curWord (pre ++ mid) pre.length = true := by
    unfold curWord
    rw [List.get?_append_right (le_refl _), Nat.sub_self, List.get?_zero, hmid]
    dsimp only
    exact hw
  have hprev : prevWord (pre ++ mid) pre.length = false := by
    unfold prevWord
    cases hp : pre.length with
    | zero => rfl
    | succ j =>
      dsimp only
      have hj : j < pre.length := by omega
      rw [List.get?_append hj]
      rcases hL : pre.getLast? with _ | c'
      · have : pre = [] := List.getLast?_eq_none_iff.mp hL
        subst this
        simp at hp
      · have hj' : pre.get? j = some c' := by
          rw [show j = pre.length - 1 by omega, ← List.getLast?_eq_get? pre, hL]
        rw [hj']
        unfold boundaryBefore at hb
        rw [hL] at hb
        simpa using hb
  unfold wordBoundaryAt
  rw [hcur, hprev]
  rfl

/-- `\b` holds where the last word character of `mid` meets a non-word
context. -/
theorem wb_after (pre mid post : List Char) (d : Char)
    (hlast : mid.getLast? = some d) (hw : isWordChar d = true)
    (ha : boundaryAfter post = true) :
    wordBoundaryAt ((pre ++ mid) ++ post) (pre.length + mid.length) = true := by
  have hmid : mid ≠ [] := by
    intro hh; rw [hh] at hlast; cases hlast
  have hlen : (pre ++ mid).length = pre.length + mid.length := List.length_append pre mid
  have hcur : curWord ((pre ++ mid) ++ post) (pre.length + mid.length) = false := by
    unfold curWord
    rw [← hlen, List.get?_append_right (le_refl _), Nat.sub_self, List.get?_zero]
    unfold boundaryAfter at ha
    rcases hh : post.head? with _ | c
    · rfl
    · rw [hh] at ha
      dsimp only
      simpa using ha
  have hprev : prevWord ((pre ++ mid) ++ post) (pre.length + mid.length) = true := by
    have h1 : 1 ≤ mid.length := by
      cases mid with
      | nil => exact absurd rfl hmid
      | cons _ _ => simp
    unfold prevWord
    cases hp : pre.length + mid.length with
    | zero => omega
    | succ j =>
      dsimp only
      have hj : j < (pre ++ mid).length := by omega
      rw [List.get?_append hj]
      have hj' : (pre ++ mid).get? j = (pre ++ mid).getLast? := by
        rw [List.getLast?_eq_get?, hlen, show pre.length + mid.length - 1 = j by omega]
      rw [hj', List.getLast?_append_of_ne_nil pre hmid, hlast]
      dsimp only
      exact hw
  unfold wordBoundaryAt
  rw [hcur, hprev]
  rfl

/-- The plain credit-card matcher succeeds on a delimited digit run of
length 13–19. -/
theorem matchAt_ccPlain_at (pre card post : List Char)
    (hlen13 : 13 ≤ card.length) (hlen19 : card.length ≤ 19)
    (hd : ∀ c ∈ card, isDigitChar c = true)
    (hb : boundaryBefore pre = true) (ha : boundaryAfter post = true) :
    matchAt ccPlainRule.regex (pre ++ (card ++ post)) pre.length =
      some (pre.length + card.length) := by
  have hne : card ≠ [] := by
    intro hh; rw [hh] at hlen13; simp at hlen13
  obtain ⟨c0, hc0⟩ : ∃ c0, card.head? = some c0 := by
    cases card with
    | nil => exact absurd rfl hne
    | cons x xs => exact ⟨x, rfl⟩
  obtain ⟨cl, hcl⟩ : ∃ cl, card.getLast? = some cl := by
    rcases hh : card.getLast? with _ | cl
    · exact absurd (List.getLast?_eq_none_iff.mp hh) hne
    · exact ⟨cl, rfl⟩
  have hc0w : isWordChar c0 = true :=
    isWordChar_of_digit c0 (hd c0 (List.mem_of_mem_head? hc0))
  have hclw : isWordChar cl = true :=
    isWordChar_of_digit cl (hd cl (List.mem_of_mem_getLast? hcl))
  have hwb1 : wordBoundaryAt (pre ++ (card ++ post)) pre.length = true := by
    refine wb_before pre (card ++ post) c0 ?_ hb hc0w
    cases card with
    | nil => exact absurd rfl hne
    | cons x xs => simpa using hc0
  have hwb2 : wordBoundaryAt (pre ++ (card ++ post)) (pre.length + card.length) = true := by
    have := wb_after pre card post cl hcl hclw ha
    simpa [List.append_assoc] using this
  have hpost0 : countLeading isDigitChar post = 0 := by
    apply countLeading_head_not
    intro c hc
    unfold boundaryAfter at ha
    rw [hc] at ha
    exact not_digit_of_not_word c (by simpa using ha)
  have htc : takeClass isDigitChar (pre ++ (card ++ post)) pre.length = card.length := by
    unfold takeClass
    rw [List.drop_left' rfl, countLeading_append _ _ _ hd, hpost0]
    omega
  show matchK ccPlainRule.regex (pre ++ (card ++ post)) pre.length some =
    some (pre.length + card.length)
  simp only [ccPlainRule, matchK, hwb1, if_true, htc]
  rw [show (min card.length 19 : Nat) = card.length from Nat.min_eq_left hlen19]
  exact repTry_top _ _ _ _ _ (by rw [hwb2]; rfl) hlen13

/-- Any successful plain credit-card match consumes between 13 and 19
characters of the digit run at its start position. -/
theorem matchAt_ccPlain_sound (t : List Char) (i e : Nat)
    (h : matchAt ccPlainRule.regex t i = some e) :
    ∃ m, 13 ≤ m ∧ m ≤ takeClass isDigitChar t i ∧ e = i + m := by
  unfold matchAt at h
  simp only [ccPlainRule, matchK] at h
  split at h
  · rcases repTry_sound _ _ _ _ _ h with ⟨m, h1, h2, h3⟩
    have hcap : m ≤ takeClass isDigitChar t i := by
      have hmin := Nat.min_le_left (takeClass isDigitChar t i) 19
      have h2' : m ≤ min (takeClass isDigitChar t i) 19 := h2
      omega
    refine ⟨m, h1, hcap, ?_⟩
    split at h3
    · cases h3; rfl
    · cases h3
  · cases h

/-- The plain credit-card exec loop reaches any delimited 13–19-digit run:
starting from any position at or before the run, the run itself is among the
collected matches. -/
theorem execLoop_ccPlain_mem (pre card post : List Char)
    (hlen13 : 13 ≤ card.length) (hlen19 : card.length ≤ 19)
    (hd : ∀ c ∈ card, isDigitChar c = true)
    (hb : boundaryBefore pre = true) (ha : boundaryAfter post = true) :
    ∀ fuel s, s ≤ pre.length → (pre ++ (card ++ post)).length + 1 - s ≤ fuel →
      card ∈ execLoop ccPlainRule.regex (pre ++ (card ++ post)) fuel s := by
  have hlen : (pre ++ (card ++ post)).length = pre.length + (card.length + post.length) := by
    simp [List.length_append]
  have hmP : matchAt ccPlainRule.regex (pre ++ (card ++ post)) pre.length =
      some (pre.length + card.length) :=
    matchAt_ccPlain_at pre card post hlen13 hlen19 hd hb ha
  have hPle : pre.length ≤ (pre ++ (card ++ post)).length := by omega
  intro fuel
  induction fuel with
  | zero => intro s h1 h2; omega
  | succ fuel ih =>
    intro s hs hf
    rcases firstMatchFromF_finds ccPlainRule.regex (pre ++ (card ++ post))
        ((pre ++ (card ++ post)).length + 1 - s) s pre.length _ hs (by omega) hPle hmP
      with ⟨b, e, hfind, hsb, hbP⟩
    have hfm : firstMatchFrom ccPlainRule.regex (pre ++ (card ++ post)) s = some (b, e) :=
      hfind
    rcases firstMatchFromF_sound ccPlainRule.regex (pre ++ (card ++ post)) _ _ _ _ hfind
      with ⟨hsb2, hmb⟩
    by_cases hbeq : b = pre.length
    · subst hbeq
      rw [hmP] at hmb
      have he : e = pre.length + card.length := (Option.some.inj hmb).symm
      simp only [execLoop, hfm]
      have hhead : ((pre ++ (card ++ post)).drop pre.length).take (e - pre.length) = card := by
        rw [List.drop_left, show e - pre.length = card.length by omega, List.take_left]
      rw [hhead]
      exact List.mem_cons_self _ _
    · have hbP2 : b < pre.length := lt_of_le_of_ne hbP hbeq
      rcases matchAt_ccPlain_sound (pre ++ (card ++ post)) b e hmb with ⟨m, hm13, hmrun, hme⟩
      have hrun : takeClass isDigitChar (pre ++ (card ++ post)) b ≤ pre.length - 1 - b := by
        by_contra hcon
        push_neg at hcon
        rcases countLeading_get isDigitChar ((pre ++ (card ++ post)).drop b)
            (pre.length - 1 - b) (by unfold takeClass at hcon; omega)
          with ⟨c, hcget, hcd⟩
        rw [List.get?_drop, show b + (pre.length - 1 - b) = pre.length - 1 by omega] at hcget
        have hplt : pre.length - 1 < pre.length := by omega
        rw [List.get?_append hplt] at hcget
        have hlast : pre.getLast? = some c := by
          rw [List.getLast?_eq_get?]
          exact hcget
        unfold boundaryBefore at hb
        rw [hlast] at hb
        have hcw : isWordChar c = false := by simpa using hb
        rw [not_digit_of_not_word c hcw] at hcd
        cases hcd
      have hble : b < e := by omega
      simp only [execLoop, hfm, if_pos hble]
      exact List.mem_cons_of_mem _ (ih e (by omega) (by omega))

/-- Any delimited Luhn-valid 13–19-digit run is among the raw matches of the
plain credit-card rule. -/
theorem allMatches_ccPlain_mem (pre card post : List Char)
    (hlen13 : 13 ≤ card.length) (hlen19 : card.length ≤ 19)
    (hd : ∀ c ∈ card, isDigitChar c = true)
    (hb : boundaryBefore pre = true) (ha : boundaryAfter post = true) :
    card ∈ allMatches ccPlainRule.regex (pre ++ (card ++ post)) :=
  execLoop_ccPlain_mem pre card post hlen13 hlen19 hd hb ha _ 0 (by omega) (by omega)

theorem countNew_pos (r : Rule) (text : List Char)
    (v : List Char → List (List Char) → List Char → Bool)
    (hv : r.validate = some v) (hnb : ¬(r.name = Category.bulkEmail)) :
    ∀ ms seen m, m ∈ ms → v m [] text = true → m ∉ seen →
      1 ≤ countNew r text ms seen := by
  intro ms
  induction ms with
  | nil => intro seen m h; intro _ _; cases h
  | cons m' ms ih =>
    intro seen m hm hval hseen
    by_cases hok : v m' [] text = true ∧ m' ∉ seen
    · simp [countNew, hv, hnb, hok.1, hok.2]
    · rcases List.mem_cons.mp hm with he | hm2
      · exact absurd ⟨he ▸ hval, he ▸ hseen⟩ hok
      · have hstep : countNew r text (m' :: ms) seen = countNew r text ms seen := by
          simp only [countNew, hv, hnb, if_false, contains_eq_decide]
          rw [if_neg ?_]
          intro hcond
          rcases Bool.and_eq_true_iff.mp hcond with ⟨h1, h2⟩
          exact hok ⟨h1, by simpa using h2⟩
        rw [hstep]
        exact ih seen m hm2 hval hseen

theorem countNew_zero_of_reject (r : Rule) (text : List Char)
    (v : List Char → List (List Char) → List Char → Bool)
    (hv : r.validate = some v) (hnb : ¬(r.name = Category.bulkEmail)) :
    ∀ ms, (∀ m ∈ ms, v m [] text = false) → ∀ seen, countNew r text ms seen = 0 := by
  intro ms
  induction ms with
  | nil => intro _ seen; rfl
  | cons m' ms ih =>
    intro hall seen
    have hm' : v m' [] text = false := hall m' (List.mem_cons_self _ _)
    simp [countNew, hv, hnb, hm', ih fun m hm => hall m (List.mem_cons_of_mem _ hm)]

theorem promoteBulk_ne_bulk (a : (Category → Nat) × List (List Char)) (c : Category)
    (hc : ¬(c = Category.bulkEmail)) : promoteBulk a c = a.1 c := by
  unfold promoteBulk
  split
  · split
    · simp [hc]
    · rfl
  · rfl

theorem contribOf_ne (r : Rule) (t : List Char) (c : Category)
    (h : ¬(r.name = c)) : contribOf r t c = 0 := by
  simp [contribOf, h]

theorem contribOf_eq (r : Rule) (t : List Char) (c : Category)
    (h : r.name = c) : contribOf r t c = countNew r t (allMatches r.regex t) [] := by
  simp [contribOf, h]

/-- The credit-card count of `scanText` is the sum of the four credit-card
rules' contributions. -/
theorem scanText_cc_eq (t : List Char) (h0 : t.length ≠ 0)
    (hmax : t.length ≤ MAX_SCAN_LENGTH) :
    scanText t Category.creditCard =
      countNew ccPlainRule t (allMatches ccPlainRule.regex t) [] +
      countNew ccSpacedRule t (allMatches ccSpacedRule.regex t) [] +
      countNew ccDashedRule t (allMatches ccDashedRule.regex t) [] +
      countNew ccAmexRule t (allMatches ccAmexRule.regex t) [] := by
  unfold scanText scanTextWith
  rw [if_neg h0, if_neg (by omega), promoteBulk_ne_bulk _ _ (by decide), foldl_res]
  simp only [PATTERNS, List.map_cons, List.map_nil, List.sum_cons, List.sum_nil]
  rw [contribOf_ne apiKeyRule t _ (by decide), contribOf_ne privateKeyRule t _ (by decide),
    contribOf_ne passwordRule1 t _ (by decide), contribOf_ne passwordRule2 t _ (by decide),
    contribOf_eq ccPlainRule t _ (by decide), contribOf_eq ccSpacedRule t _ (by decide),
    contribOf_eq ccDashedRule t _ (by decide), contribOf_eq ccAmexRule t _ (by decide),
    contribOf_ne ssnRule t _ (by decide), contribOf_ne bulkEmailRule t _ (by decide),
    contribOf_ne internalIpRule t _ (by decide), contribOf_ne jwtRule t _ (by decide),
    contribOf_ne envFileRule t _ (by decide), contribOf_ne connectionStringRule t _ (by decide)]
  omega

/-- A delimited Luhn-valid 13–19-digit run makes the credit-card count
positive. -/
theorem scan_cc_plain_detected (pre card post : List Char)
    (hlen13 : 13 ≤ card.length) (hlen19 : card.length ≤ 19)
    (hd : ∀ c ∈ card, isDigitChar c = true)
    (hb : boundaryBefore pre = true) (ha : boundaryAfter post = true)
    (hluhn : luhnCheck card = true)
    (hmax : (pre ++ (card ++ post)).length ≤ MAX_SCAN_LENGTH) :
    1 ≤ scanText (pre ++ (card ++ post)) Category.creditCard := by
  have hlen : (pre ++ (card ++ post)).length = pre.length + (card.length + post.length) := by
    simp [List.length_append]
  have h0 : (pre ++ (card ++ post)).length ≠ 0 := by omega
  have hmem := allMatches_ccPlain_mem pre card post hlen13 hlen19 hd hb ha
  have hcnt : 1 ≤ countNew ccPlainRule (pre ++ (card ++ post))
      (allMatches ccPlainRule.regex (pre ++ (card ++ post))) [] := by
    refine countNew_pos ccPlainRule _ (fun m _ _ => luhnCheck m) rfl (by decide) _ _ card
      hmem ?_ (by simp)
    exact hluhn
  rw [scanText_cc_eq _ h0 hmax]
  omega

theorem repTry_exact (i n : Nat) (k : Nat → Option Nat) :
    repTry i n k n = k (i + n) := by
  cases n with
  | zero => simp [repTry]
  | succ m =>
    simp only [repTry, if_neg (by omega : ¬(m + 1 < m + 1))]
    rcases hk : k (i + (m + 1)) with _ | r
    · rw [repTry_lt i (m + 1) k m (by omega)]
    · rfl

theorem get?_eq_head_drop (l : List Char) (n : Nat) :
    l.get? n = (l.drop n).head? := by
  rw [List.head?_drop, ← List.get?_eq_getElem?]

/-- A digit group of exact length `n` followed by a non-digit consumes
exactly `n` characters. -/
theorem matchK_rep_exact (p : Char → Bool) (n : Nat) (t : List Char) (i : Nat)
    (k : Nat → Option Nat) (g rest : List Char)
    (hdrop : t.drop i = g ++ rest) (hg : g.length = n)
    (hall : ∀ c ∈ g, p c = true) (hrest : countLeading p rest = 0) :
    matchK (RE.rep p n (some n)) t i k = k (i + n) := by
  have htc : takeClass p t i = n := by
    unfold takeClass
    rw [hdrop, countLeading_append _ _ _ hall, hrest, hg]
    omega
  simp only [matchK, htc, Nat.min_self]
  exact repTry_exact i n k

theorem matchK_cls_step (p : Char → Bool) (t : List Char) (i : Nat)
    (k : Nat → Option Nat) (c : Char) (hc : t.get? i = some c) (hp : p c = true) :
    matchK (RE.cls p) t i k = k (i + 1) := by
  simp only [matchK]
  rw [hc]
  simp [hp]

theorem matchK_seq (a b : RE) (t : List Char) (i : Nat) (k : Nat → Option Nat) :
    matchK (RE.seq a b) t i k = matchK a t i (fun j => matchK b t j k) := rfl

theorem matchK_wb_step (t : List Char) (i : Nat) (k : Nat → Option Nat)
    (h : wordBoundaryAt t i = true) : matchK RE.wb t i k = k i := by
  simp [matchK, h]

/-- The grouped credit-card matcher succeeds on a delimited 4-4-4-4 card with
a digit-free, non-word left context. -/
theorem matchAt_grouped4_at (sepP : Char → Bool) (pre g1 g2 g3 g4 post : List Char)
    (sep : Char)
    (h1 : g1.length = 4) (h2 : g2.length = 4) (h3 : g3.length = 4) (h4 : g4.length = 4)
    (hd1 : ∀ c ∈ g1, isDigitChar c = true) (hd2 : ∀ c ∈ g2, isDigitChar c = true)
    (hd3 : ∀ c ∈ g3, isDigitChar c = true) (hd4 : ∀ c ∈ g4, isDigitChar c = true)
    (hsp : sepP sep = true) (hsd : isDigitChar sep = false) (hsw : isWordChar sep = false)
    (hb : boundaryBefore pre = true) (ha : boundaryAfter post = true) :
    matchAt (grouped4RE sepP)
      (pre ++ (grouped4 g1 g2 g3 g4 sep ++ post)) pre.length =
      some (pre.length + 19) := by
  have hg4ne : g4 ≠ [] := by intro hh; rw [hh] at h4; cases h4
  have hg1ne : g1 ≠ [] := by intro hh; rw [hh] at h1; cases h1
  have hGlen : (grouped4 g1 g2 g3 g4 sep).length = 19 := by
    simp [grouped4, List.length_append, h1, h2, h3, h4]
  -- drop shapes along the card
  have hdrop0 : (pre ++ (grouped4 g1 g2 g3 g4 sep ++ post)).drop pre.length =
      g1 ++ (sep :: ((g2 ++ sep :: (g3 ++ sep :: g4)) ++ post)) := by
    rw [List.drop_left]
    simp [grouped4, List.append_assoc]
  have hdrop4 : (pre ++ (grouped4 g1 g2 g3 g4 sep ++ post)).drop (pre.length + 4) =
      sep :: ((g2 ++ sep :: (g3 ++ sep :: g4)) ++ post) := by
    rw [← List.drop_drop, hdrop0, List.drop_left' h1]
  have hdrop5 : (pre ++ (grouped4 g1 g2 g3 g4 sep ++ post)).drop (pre.length + 4 + 1) =
      g2 ++ (sep :: ((g3 ++ sep :: g4) ++ post)) := by
    rw [← List.drop_drop, hdrop4]
    simp [List.append_assoc]
  have hdrop9 : (pre ++ (grouped4 g1 g2 g3 g4 sep ++ post)).drop (pre.length + 4 + 1 + 4) =
      sep :: ((g3 ++ sep :: g4) ++ post) := by
    rw [← List.drop_drop, hdrop5, List.drop_left' h2]
  have hdrop10 : (pre ++ (grouped4 g1 g2 g3 g4 sep ++ post)).drop
      (pre.length + 4 + 1 + 4 + 1) = g3 ++ (sep :: (g4 ++ post)) := by
    rw [← List.drop_drop, hdrop9]
    simp [List.append_assoc]
  have hdrop14 : (pre ++ (grouped4 g1 g2 g3 g4 sep ++ post)).drop
      (pre.length + 4 + 1 + 4 + 1 + 4) = sep :: (g4 ++ post) := by
    rw [← List.drop_drop, hdrop10, List.drop_left' h3]
  have hdrop15 : (pre ++ (grouped4 g1 g2 g3 g4 sep ++ post)).drop
      (pre.length + 4 + 1 + 4 + 1 + 4 + 1) = g4 ++ post := by
    rw [← List.drop_drop, hdrop14]
    simp
  have hpost0 : countLeading isDigitChar post = 0 := by
    apply countLeading_head_not
    intro c hc
    unfold boundaryAfter at ha
    rw [hc] at ha
    exact not_digit_of_not_word c (by simpa using ha)
  have hsepk : ∀ rest, countLeading isDigitChar (sep :: rest) = 0 := by
    intro rest
    simp [countLeading, hsd]
  -- word boundaries at both ends
  obtain ⟨c0, hc0⟩ : ∃ c0, g1.head? = some c0 := by
    cases g1 with
    | nil => exact absurd rfl hg1ne
    | cons x xs => exact ⟨x, rfl⟩
  have hwb1 : wordBoundaryAt (pre ++ (grouped4 g1 g2 g3 g4 sep ++ post)) pre.length
      = true := by
    refine wb_before pre _ c0 ?_
      hb (isWordChar_of_digit c0 (hd1 c0 (List.mem_of_mem_head? hc0)))
    have : (grouped4 g1 g2 g3 g4 sep).head? = some c0 := by
      unfold grouped4
      cases g1 with
      | nil => exact absurd rfl hg1ne
      | cons x xs => simpa using hc0
    cases hG : grouped4 g1 g2 g3 g4 sep with
    | nil => rw [hG] at this; cases this
    | cons y ys =>
      rw [hG] at this
      simpa using this
  obtain ⟨cl, hcl⟩ : ∃ cl, g4.getLast? = some cl := by
    rcases hh : g4.getLast? with _ | cl
    · exact absurd (List.getLast?_eq_none_iff.mp hh) hg4ne
    · exact ⟨cl, rfl⟩
  have hwb2 : wordBoundaryAt (pre ++ (grouped4 g1 g2 g3 g4 sep ++ post))
      (pre.length + 4 + 1 + 4 + 1 + 4 + 1 + 4) = true := by
    have hGlast : (grouped4 g1 g2 g3 g4 sep).getLast? = some cl := by
      unfold grouped4
      rw [List.getLast?_append_of_ne_nil _ (by simp),
        show (sep :: (g2 ++ sep :: (g3 ++ sep :: g4)) : List Char) =
          [sep] ++ (g2 ++ sep :: (g3 ++ sep :: g4)) from rfl,
        List.getLast?_append_of_ne_nil _ (by simp),
        List.getLast?_append_of_ne_nil _ (by simp),
        show (sep :: (g3 ++ sep :: g4) : List Char) = [sep] ++ (g3 ++ sep :: g4) from rfl,
        List.getLast?_append_of_ne_nil _ (by simp),
        List.getLast?_append_of_ne_nil _ (by simp [hg4ne]),
        show (sep :: g4 : List Char) = [sep] ++ g4 from rfl,
        List.getLast?_append_of_ne_nil _ hg4ne]
      exact hcl
    have hw := wb_after pre (grouped4 g1 g2 g3 g4 sep) post cl hGlast
      (isWordChar_of_digit cl (hd4 cl (List.mem_of_mem_getLast? hcl))) ha
    rw [hGlen] at hw
    have harith : pre.length + 4 + 1 + 4 + 1 + 4 + 1 + 4 = pre.length + 19 := by omega
    rw [harith]
    simpa [List.append_assoc] using hw
  -- assemble the chain
  have hget4 : (pre ++ (grouped4 g1 g2 g3 g4 sep ++ post)).get? (pre.length + 4) =
      some sep := by
    rw [get?_eq_head_drop, hdrop4]
    rfl
  have hget9 : (pre ++ (grouped4 g1 g2 g3 g4 sep ++ post)).get?
      (pre.length + 4 + 1 + 4) = some sep := by
    rw [get?_eq_head_drop, hdrop9]
    rfl
  have hget14 : (pre ++ (grouped4 g1 g2 g3 g4 sep ++ post)).get?
      (pre.length + 4 + 1 + 4 + 1 + 4) = some sep := by
    rw [get?_eq_head_drop, hdrop14]
    rfl
  show matchK (grouped4RE sepP) _ _ some = _
  unfold grouped4RE
  rw [matchK_seq, matchK_wb_step _ _ _ hwb1]
  rw [matchK_seq, matchK_rep_exact isDigitChar 4 _ _ _ g1 _ hdrop0 h1 hd1 (hsepk _)]
  rw [matchK_seq, matchK_cls_step sepP _ _ _ sep hget4 hsp]
  rw [matchK_seq, matchK_rep_exact isDigitChar 4 _ _ _ g2 _ hdrop5 h2 hd2 (hsepk _)]
  rw [matchK_seq, matchK_cls_step sepP _ _ _ sep hget9 hsp]
  rw [matchK_seq, matchK_rep_exact isDigitChar 4 _ _ _ g3 _ hdrop10 h3 hd3 (hsepk _)]
  rw [matchK_seq, matchK_cls_step sepP _ _ _ sep hget14 hsp]
  rw [matchK_seq, matchK_rep_exact isDigitChar 4 _ _ _ g4 post hdrop15 h4 hd4 hpost0]
  rw [matchK_wb_step _ _ _ hwb2]

theorem matchAt_grouped4_none (sepP : Char → Bool) (t : List Char) (i : Nat) (c : Char)
    (hc : t.get? i = some c) (hcd : isDigitChar c = false) :
    matchAt (grouped4RE sepP) t i = none := by
  have htc : takeClass isDigitChar t i = 0 := by
    unfold takeClass
    rcases hdrop : t.drop i with _ | ⟨x, xs⟩
    · rfl
    · have hx : x = c := by
        have h1 : (t.drop i).head? = some x := by rw [hdrop]; rfl
        rw [← get?_eq_head_drop, hc] at h1
        exact (Option.some.inj h1).symm
      subst hx
      simp [countLeading, hcd]
  show matchK (grouped4RE sepP) t i some = none
  unfold grouped4RE
  rw [matchK_seq]
  by_cases hwb : wordBoundaryAt t i = true
  · rw [matchK_wb_step _ _ _ hwb, matchK_seq]
    show matchK (RE.rep isDigitChar 4 (some 4)) t i _ = none
    simp only [matchK, htc, Nat.zero_min]
    exact repTry_lt _ _ _ 0 (by omega)
  · simp [matchK, hwb]

/-- With a digit-free, non-word prefix, the grouped card is the head match of
the exec loop. -/
theorem allMatches_grouped4_mem (sepP : Char → Bool) (pre g1 g2 g3 g4 post : List Char)
    (sep : Char)
    (h1 : g1.length = 4) (h2 : g2.length = 4) (h3 : g3.length = 4) (h4 : g4.length = 4)
    (hd1 : ∀ c ∈ g1, isDigitChar c = true) (hd2 : ∀ c ∈ g2, isDigitChar c = true)
    (hd3 : ∀ c ∈ g3, isDigitChar c = true) (hd4 : ∀ c ∈ g4, isDigitChar c = true)
    (hsp : sepP sep = true) (hsd : isDigitChar sep = false) (hsw : isWordChar sep = false)
    (hpre : ∀ c ∈ pre, isDigitChar c = false)
    (hb : boundaryBefore pre = true) (ha : boundaryAfter post = true) :
    grouped4 g1 g2 g3 g4 sep ∈
      allMatches (grouped4RE sepP) (pre ++ (grouped4 g1 g2 g3 g4 sep ++ post)) := by
  have hGlen : (grouped4 g1 g2 g3 g4 sep).length = 19 := by
    simp [grouped4, List.length_append, h1, h2, h3, h4]
  have hlen : (pre ++ (grouped4 g1 g2 g3 g4 sep ++ post)).length =
      pre.length + (19 + post.length) := by
    simp [List.length_append, hGlen]
  have hmP := matchAt_grouped4_at sepP pre g1 g2 g3 g4 post sep h1 h2 h3 h4
    hd1 hd2 hd3 hd4 hsp hsd hsw hb ha
  have hnone : ∀ i, 0 ≤ i → i < pre.length →
      matchAt (grouped4RE sepP) (pre ++ (grouped4 g1 g2 g3 g4 sep ++ post)) i = none := by
    intro i _ hi
    have hget : (pre ++ (grouped4 g1 g2 g3 g4 sep ++ post)).get? i =
        some (pre.get ⟨i, hi⟩) := by
      rw [List.get?_append hi]
      exact List.get?_eq_get hi
    exact matchAt_grouped4_none sepP _ i _ hget (hpre _ (pre.get_mem _ _))
  have hfm : firstMatchFrom (grouped4RE sepP) (pre ++ (grouped4 g1 g2 g3 g4 sep ++ post)) 0 =
      some (pre.length, pre.length + 19) := by
    apply firstMatchFromF_skip
    · exact fun i hi1 hi2 => hnone i hi1 hi2
    · exact hmP
    · omega
    · omega
    · omega
  show grouped4 g1 g2 g3 g4 sep ∈
    execLoop (grouped4RE sepP) (pre ++ (grouped4 g1 g2 g3 g4 sep ++ post))
      ((pre ++ (grouped4 g1 g2 g3 g4 sep ++ post)).length + 1) 0
  rw [hlen]
  have hstep : execLoop (grouped4RE sepP) (pre ++ (grouped4 g1 g2 g3 g4 sep ++ post))
      (pre.length + (19 + post.length) + 1) 0 =
      ((pre ++ (grouped4 g1 g2 g3 g4 sep ++ post)).drop pre.length).take
          (pre.length + 19 - pre.length) ::
        execLoop (grouped4RE sepP) (pre ++ (grouped4 g1 g2 g3 g4 sep ++ post))
          (pre.length + (19 + post.length))
          (if pre.length < pre.length + 19 then pre.length + 19 else pre.length + 19 + 1) := by
    simp only [execLoop, hfm]
  rw [hstep, List.drop_left, show pre.length + 19 - pre.length = 19 by omega,
    List.take_left' hGlen]
  exact List.mem_cons_self _ _

theorem luhnCheck_eq_of_filter (m₁ m₂ : List Char)
    (h : m₁.filter (fun c => c.isDigit) = m₂.filter (fun c => c.isDigit)) :
    luhnCheck m₁ = luhnCheck m₂ := by
  unfold luhnCheck
  rw [h]

theorem not_digit_of_space (c : Char) (h : isSpaceChar c = true) :
    isDigitChar c = false := by
  unfold isSpaceChar at h
  simp only [Bool.or_eq_true, beq_iff_eq] at h
  rcases h with ((((h | h) | h) | h) | h) | h <;> subst h <;> decide

theorem not_word_of_space (c : Char) (h : isSpaceChar c = true) :
    isWordChar c = false := by
  unfold isSpaceChar at h
  simp only [Bool.or_eq_true, beq_iff_eq] at h
  rcases h with ((((h | h) | h) | h) | h) | h <;> subst h <;> decide

/-- A delimited spaced or dashed Luhn-valid 4-4-4-4 card whose prefix holds
no digits makes the credit-card count positive. -/
theorem scan_cc_grouped_detected (pre g1 g2 g3 g4 post : List Char) (sep : Char)
    (h1 : g1.length = 4) (h2 : g2.length = 4) (h3 : g3.length = 4) (h4 : g4.length = 4)
    (hd1 : ∀ c ∈ g1, isDigitChar c = true) (hd2 : ∀ c ∈ g2, isDigitChar c = true)
    (hd3 : ∀ c ∈ g3, isDigitChar c = true) (hd4 : ∀ c ∈ g4, isDigitChar c = true)
    (hsep : isSpaceChar sep = true ∨ sep = '-')
    (hpre : ∀ c ∈ pre, isDigitChar c = false)
    (hb : boundaryBefore pre = true) (ha : boundaryAfter post = true)
    (hluhn : luhnCheck (g1 ++ g2 ++ g3 ++ g4) = true)
    (hmax : (pre ++ (grouped4 g1 g2 g3 g4 sep ++ post)).length ≤ MAX_SCAN_LENGTH) :
    1 ≤ scanText (pre ++ (grouped4 g1 g2 g3 g4 sep ++ post)) Category.creditCard := by
  have hsd : isDigitChar sep = false := by
    rcases hsep with h | h
    · exact not_digit_of_space sep h
    · subst h; decide
  have hsw : isWordChar sep = false := by
    rcases hsep with h | h
    · exact not_word_of_space sep h
    · subst h; decide
  have hGlen : (grouped4 g1 g2 g3 g4 sep).length = 19 := by
    simp [grouped4, List.length_append, h1, h2, h3, h4]
  have h0 : (pre ++ (grouped4 g1 g2 g3 g4 sep ++ post)).length ≠ 0 := by
    simp [List.length_append, hGlen]
  have hluhnG : luhnCheck (grouped4 g1 g2 g3 g4 sep) = true := by
    rw [luhnCheck_eq_of_filter (grouped4 g1 g2 g3 g4 sep) (g1 ++ g2 ++ g3 ++ g4) ?_]
    · exact hluhn
    · have e1 : g1.filter (fun c => c.isDigit) = g1 :=
        List.filter_eq_self.mpr fun c hc => hd1 c hc
      have e2 : g2.filter (fun c => c.isDigit) = g2 :=
        List.filter_eq_self.mpr fun c hc => hd2 c hc
      have e3 : g3.filter (fun c => c.isDigit) = g3 :=
        List.filter_eq_self.mpr fun c hc => hd3 c hc
      have e4 : g4.filter (fun c => c.isDigit) = g4 :=
        List.filter_eq_self.mpr fun c hc => hd4 c hc
      have esep : (fun c => c.isDigit) sep = false := hsd
      simp [grouped4, List.filter_append, List.filter_cons, esep, e1, e2, e3, e4,
        List.append_assoc]
  rcases hsep with hsp | hdash
  · have hmem := allMatches_grouped4_mem isSpaceChar pre g1 g2 g3 g4 post sep
      h1 h2 h3 h4 hd1 hd2 hd3 hd4 hsp hsd hsw hpre hb ha
    have hcnt : 1 ≤ countNew ccSpacedRule (pre ++ (grouped4 g1 g2 g3 g4 sep ++ post))
        (allMatches ccSpacedRule.regex (pre ++ (grouped4 g1 g2 g3 g4 sep ++ post))) [] := by
      refine countNew_pos ccSpacedRule _ (fun m _ _ => luhnCheck m) rfl (by decide) _ _
        (grouped4 g1 g2 g3 g4 sep) hmem ?_ (by simp)
      exact hluhnG
    rw [scanText_cc_eq _ h0 hmax]
    omega
  · subst hdash
    have hmem := allMatches_grouped4_mem (fun c => c == '-') pre g1 g2 g3 g4 post '-'
      h1 h2 h3 h4 hd1 hd2 hd3 hd4 rfl hsd hsw hpre hb ha
    have hcnt : 1 ≤ countNew ccDashedRule (pre ++ (grouped4 g1 g2 g3 g4 '-' ++ post))
        (allMatches ccDashedRule.regex (pre ++ (grouped4 g1 g2 g3 g4 '-' ++ post))) [] := by
      refine countNew_pos ccDashedRule _ (fun m _ _ => luhnCheck m) rfl (by decide) _ _
        (grouped4 g1 g2 g3 g4 '-') hmem ?_ (by simp)
      exact hluhnG
    rw [scanText_cc_eq _ h0 hmax]
    omega

theorem luhnLoop_eq_spec : ∀ l : List Nat, luhnLoop l false = luhnSpecSum l := by
  intro l
  induction l using luhnSpecSum.induct with
  | case1 => rfl
  | case2 d => rfl
  | case3 d e rest ih =>
    show d + luhnLoop (e :: rest) true = luhnSpecSum (d :: e :: rest)
    have h2 : luhnLoop (e :: rest) true =
        (if 2 * e > 9 then 2 * e - 9 else 2 * e) + luhnLoop rest false := rfl
    rw [h2, ih]
    show d + ((if 2 * e > 9 then 2 * e - 9 else 2 * e) + luhnSpecSum rest) =
      d + luhnDouble e + luhnSpecSum rest
    unfold luhnDouble
    omega

/-- `luhnCheck` is the spec-side Luhn acceptance: the digit-only form has
13–19 digits and the alternating doubled sum is divisible by 10. -/
theorem luhnCheck_iff (m : List Char) :
    luhnCheck m = true ↔
      (13 ≤ (digitsOf m).length ∧ (digitsOf m).length ≤ 19 ∧
       luhnSpecSum (((digitsOf m).map digitVal).reverse) % 10 = 0) := by
  have key : luhnCheck m =
      (if ((m.filter (fun c => c.isDigit)).length < 13 ||
            (m.filter (fun c => c.isDigit)).length > 19) then false
       else ((luhnLoop (((m.filter (fun c => c.isDigit)).map digitVal).reverse) false) % 10
         == 0)) := rfl
  unfold digitsOf
  rw [key, luhnLoop_eq_spec]
  constructor
  · intro h
    split at h
    · cases h
    · rename_i hlen
      simp only [Bool.or_eq_true, decide_eq_true_eq, not_or] at hlen
      refine ⟨by omega, by omega, by simpa using h⟩
  · intro ⟨ha, hb, hc⟩
    rw [if_neg (by simp; omega)]
    simpa using hc

/-- No Luhn-failing candidate ever yields a credit-card entry. -/
theorem scan_cc_zero_of_reject (t : List Char) (hmax : t.length ≤ MAX_SCAN_LENGTH)
    (hrej : ∀ m ∈ ccCandidates t, luhnCheck m = false) :
    scanText t Category.creditCard = 0 := by
  by_cases h0 : t.length = 0
  · unfold scanText scanTextWith
    rw [if_pos h0]
  · have m1 : ∀ m ∈ allMatches ccPlainRule.regex t, m ∈ ccCandidates t := by
      intro m hm
      unfold ccCandidates
      exact List.mem_append_left _ (List.mem_append_left _ (List.mem_append_left _ hm))
    have m2 : ∀ m ∈ allMatches ccSpacedRule.regex t, m ∈ ccCandidates t := by
      intro m hm
      unfold ccCandidates
      exact List.mem_append_left _ (List.mem_append_left _ (List.mem_append_right _ hm))
    have m3 : ∀ m ∈ allMatches ccDashedRule.regex t, m ∈ ccCandidates t := by
      intro m hm
      unfold ccCandidates
      exact List.mem_append_left _ (List.mem_append_right _ hm)
    have m4 : ∀ m ∈ allMatches ccAmexRule.regex t, m ∈ ccCandidates t := by
      intro m hm
      unfold ccCandidates
      exact List.mem_append_right _ hm
    have z1 : countNew ccPlainRule t (allMatches ccPlainRule.regex t) [] = 0 :=
      countNew_zero_of_reject _ _ (fun m _ _ => luhnCheck m) rfl (by decide) _
        (fun m hm => hrej m (m1 m hm)) []
    have z2 : countNew ccSpacedRule t (allMatches ccSpacedRule.regex t) [] = 0 :=
      countNew_zero_of_reject _ _ (fun m _ _ => luhnCheck m) rfl (by decide) _
        (fun m hm => hrej m (m2 m hm)) []
    have z3 : countNew ccDashedRule t (allMatches ccDashedRule.regex t) [] = 0 :=
      countNew_zero_of_reject _ _ (fun m _ _ => luhnCheck m) rfl (by decide) _
        (fun m hm => hrej m (m3 m hm)) []
    have z4 : countNew ccAmexRule t (allMatches ccAmexRule.regex t) [] = 0 :=
      countNew_zero_of_reject _ _ (fun m _ _ => luhnCheck m) rfl (by decide) _
        (fun m hm => hrej m (m4 m hm)) []
    rw [scanText_cc_eq t h0 hmax, z1, z2, z3, z4]

/-- C3 (amended): (1) a candidate credit-card match is accepted iff its
digit-only form has 13–19 digits and passes the Luhn checksum; (2) every
scannable text containing a word-delimited Luhn-valid 16-digit card in plain
form reports Credit Cards with count at least 1; (3) so does every scannable
text containing a word-delimited Luhn-valid card in spaced or dashed 4-4-4-4
form whose prefix holds no digit characters (the restriction the
counterexample forces: an earlier overlapping grouped match may otherwise
consume part of the card); (4) when every candidate match fails the
checksum, no Credit Cards entry is produced. -/
theorem C3_credit_card_detection :
    (∀ m : List Char, luhnCheck m = true ↔
      (13 ≤ (digitsOf m).length ∧ (digitsOf m).length ≤ 19 ∧
       luhnSpecSum (((digitsOf m).map digitVal).reverse) % 10 = 0)) ∧
    (∀ pre card post : List Char, card.length = 16 →
      (∀ c ∈ card, isDigitChar c = true) → boundaryBefore pre = true →
      boundaryAfter post = true → luhnCheck card = true →
      (pre ++ (card ++ post)).length ≤ MAX_SCAN_LENGTH →
      1 ≤ scanText (pre ++ (card ++ post)) Category.creditCard) ∧
    (∀ (pre g1 g2 g3 g4 post : List Char) (sep : Char),
      g1.length = 4 → g2.length = 4 → g3.length = 4 → g4.length = 4 →
      (∀ c ∈ g1, isDigitChar c = true) → (∀ c ∈ g2, isDigitChar c = true) →
      (∀ c ∈ g3, isDigitChar c = true) → (∀ c ∈ g4, isDigitChar c = true) →
      (isSpaceChar sep = true ∨ sep = '-') →
      (∀ c ∈ pre, isDigitChar c = false) →
      boundaryBefore pre = true → boundaryAfter post = true →
      luhnCheck (g1 ++ g2 ++ g3 ++ g4) = true →
      (pre ++ (grouped4 g1 g2 g3 g4 sep ++ post)).length ≤ MAX_SCAN_LENGTH →
      1 ≤ scanText (pre ++ (grouped4 g1 g2 g3 g4 sep ++ post)) Category.creditCard) ∧
    (∀ t : List Char, t.length ≤ MAX_SCAN_LENGTH →
      (∀ m ∈ ccCandidates t, luhnCheck m = false) →
      scanText t Category.creditCard = 0) := by
  refine ⟨luhnCheck_iff, ?_, ?_, scan_cc_zero_of_reject⟩
  · intro pre card post hlen hd hb ha hluhn hmax
    exact scan_cc_plain_detected pre card post (by omega) (by omega) hd hb ha hluhn hmax
  · intro pre g1 g2 g3 g4 post sep h1 h2 h3 h4 hd1 hd2 hd3 hd4 hsep hpre hb ha hluhn hmax
    exact scan_cc_grouped_detected pre g1 g2 g3 g4 post sep h1 h2 h3 h4 hd1 hd2 hd3 hd4
      hsep hpre hb ha hluhn hmax

/-- Witness for C3 at the standard test card. -/
theorem C3_credit_card_detection_witness :
    1 ≤ scanText ([] ++ ("4111111111111111".data ++ [])) Category.creditCard :=
  C3_credit_card_detection.2.1 [] "4111111111111111".data [] (by decide) (by decide)
    (by decide) (by decide) (by decide) (by decide)

/-- C3 counterexample: the text `1111 1111 1112 4111 1111 1111 1111` contains
the word-delimited, Luhn-valid spaced card `4111 1111 1111 1111` (the prefix
ends in a space, the suffix is empty), yet `scanText` reports no Credit Cards
entry: the spaced matcher first consumes the overlapping group
`1111 1111 1112 4111`, which fails the checksum, and the remainder no longer
matches — so the claim as stated is false for the spaced form. -/
theorem C3_counterexample :
    "1111 1111 1112 4111 1111 1111 1111".data =
      "1111 1111 1112 ".data ++
        (grouped4 "4111".data "1111".data "1111".data "1111".data ' ' ++ []) ∧
    luhnCheck ("4111".data ++ "1111".data ++ "1111".data ++ "1111".data) = true ∧
    isSpaceChar ' ' = true ∧
    boundaryBefore "1111 1111 1112 ".data = true ∧
    boundaryAfter ([] : List Char) = true ∧
    ("1111 1111 1112 4111 1111 1111 1111".data).length ≤ MAX_SCAN_LENGTH ∧
    scanText "1111 1111 1112 4111 1111 1111 1111".data Category.creditCard = 0 := by
  refine ⟨by decide, by decide, by decide, by decide, by decide, by decide, by decide⟩

end PromptShield

